import Mathlib

/-!
# Verification of the Chain-Fox rule-engine filter
  (src/integration/rule_engine/rule_engine_core.py)

Shallow embedding of the Python module: a `Json` value type models the
parsed JSON documents, a `Pat` type models the compiled regex patterns
actually produced by `load_filter_patterns` (every compiled pattern is one
of four simple shapes), and `apply_filter` is translated statement by
statement, with Python run-time errors (`AttributeError`, `TypeError`)
modelled in an `Except` monad and in-place dict mutation modelled by
explicit state passing.
-/

namespace RuleEngine

/-- JSON values as produced by `json.load` (integers only; the analysed
documents carry no floats).  Objects are ordered key/value lists, matching
Python's insertion-ordered dicts. -/
inductive Json where
  | null : Json
  | bool : Bool → Json
  | num  : Int → Json
  | str  : String → Json
  | arr  : List Json → Json
  | obj  : List (String × Json) → Json
  deriving Repr

/-- Python run-time errors raised by `apply_filter` on ill-shaped input:
`.get` on a non-dict raises `AttributeError`; iterating a non-iterable,
regex-searching a non-string, `in` on a non-container and unhashable set
members or dict keys raise `TypeError`. -/
inductive PyErr where
  | attributeError : PyErr
  | typeError : PyErr
  deriving Repr, DecidableEq

mutual

/-- Structural equality on `Json`, modelling Python's `==` on parsed JSON
values (no aliasing: `json.load` never produces shared sub-objects). -/
def Json.beq : Json → Json → Bool
  | .null, .null => true
  | .bool a, .bool b => a == b
  | .num a, .num b => a == b
  | .str a, .str b => a == b
  | .arr xs, .arr ys => Json.beqList xs ys
  | .obj xs, .obj ys => Json.beqKVs xs ys
  | _, _ => false

def Json.beqList : List Json → List Json → Bool
  | [], [] => true
  | x :: xs, y :: ys => Json.beq x y && Json.beqList xs ys
  | _, _ => false

def Json.beqKVs : List (String × Json) → List (String × Json) → Bool
  | [], [] => true
  | (k, v) :: xs, (k', v') :: ys => k == k' && Json.beq v v' && Json.beqKVs xs ys
  | _, _ => false

end

instance : BEq Json := ⟨Json.beq⟩

mutual

theorem Json.eq_of_beq : (a b : Json) → Json.beq a b = true → a = b
  | .null, .null, _ => rfl
  | .bool _, .bool _, h => congrArg Json.bool (by simpa [Json.beq] using h)
  | .num _, .num _, h => congrArg Json.num (by simpa [Json.beq] using h)
  | .str _, .str _, h => congrArg Json.str (by simpa [Json.beq] using h)
  | .arr xs, .arr ys, h => congrArg Json.arr (Json.eq_of_beqList xs ys h)
  | .obj xs, .obj ys, h => congrArg Json.obj (Json.eq_of_beqKVs xs ys h)
  | .null, .bool _, h => nomatch h
  | .null, .num _, h => nomatch h
  | .null, .str _, h => nomatch h
  | .null, .arr _, h => nomatch h
  | .null, .obj _, h => nomatch h
  | .bool _, .null, h => nomatch h
  | .bool _, .num _, h => nomatch h
  | .bool _, .str _, h => nomatch h
  | .bool _, .arr _, h => nomatch h
  | .bool _, .obj _, h => nomatch h
  | .num _, .null, h => nomatch h
  | .num _, .bool _, h => nomatch h
  | .num _, .str _, h => nomatch h
  | .num _, .arr _, h => nomatch h
  | .num _, .obj _, h => nomatch h
  | .str _, .null, h => nomatch h
  | .str _, .bool _, h => nomatch h
  | .str _, .num _, h => nomatch h
  | .str _, .arr _, h => nomatch h
  | .str _, .obj _, h => nomatch h
  | .arr _, .null, h => nomatch h
  | .arr _, .bool _, h => nomatch h
  | .arr _, .num _, h => nomatch h
  | .arr _, .str _, h => nomatch h
  | .arr _, .obj _, h => nomatch h
  | .obj _, .null, h => nomatch h
  | .obj _, .bool _, h => nomatch h
  | .obj _, .num _, h => nomatch h
  | .obj _, .str _, h => nomatch h
  | .obj _, .arr _, h => nomatch h

theorem Json.eq_of_beqList : (xs ys : List Json) → Json.beqList xs ys = true → xs = ys
  | [], [], _ => rfl
  | [], _ :: _, h => nomatch h
  | _ :: _, [], h => nomatch h
  | x :: xs, y :: ys, h => by
    simp only [Json.beqList, Bool.and_eq_true] at h
    rw [Json.eq_of_beq x y h.1, Json.eq_of_beqList xs ys h.2]

theorem Json.eq_of_beqKVs :
    (xs ys : List (String × Json)) → Json.beqKVs xs ys = true → xs = ys
  | [], [], _ => rfl
  | [], _ :: _, h => nomatch h
  | _ :: _, [], h => nomatch h
  | (k, v) :: xs, (k', v') :: ys, h => by
    simp only [Json.beqKVs, Bool.and_eq_true] at h
    have hk : k = k' := by simpa using h.1.1
    rw [hk, Json.eq_of_beq v v' h.1.2, Json.eq_of_beqKVs xs ys h.2]

end

mutual

theorem Json.beq_refl : (a : Json) → Json.beq a a = true
  | .null => rfl
  | .bool b => by simp [Json.beq]
  | .num n => by simp [Json.beq]
  | .str s => by simp [Json.beq]
  | .arr xs => Json.beqList_refl xs
  | .obj xs => Json.beqKVs_refl xs

theorem Json.beqList_refl : (xs : List Json) → Json.beqList xs xs = true
  | [] => rfl
  | x :: xs => by
    simp only [Json.beqList, Bool.and_eq_true]
    exact ⟨Json.beq_refl x, Json.beqList_refl xs⟩

theorem Json.beqKVs_refl : (xs : List (String × Json)) → Json.beqKVs xs xs = true
  | [] => rfl
  | (k, v) :: xs => by
    simp only [Json.beqKVs, Bool.and_eq_true]
    exact ⟨⟨by simp, Json.beq_refl v⟩, Json.beqKVs_refl xs⟩

end

instance : LawfulBEq Json where
  eq_of_beq h := Json.eq_of_beq _ _ h
  rfl := Json.beq_refl _

instance : DecidableEq Json := fun a b =>
  decidable_of_iff (Json.beq a b = true)
    ⟨Json.eq_of_beq a b, fun h => h ▸ Json.beq_refl a⟩

deriving instance DecidableEq for Except

/-! ## Character-level string matching

`re.search` semantics for the four pattern shapes the engine compiles. -/

/-- Literal match at the head of a character list. -/
def isPrefixCh : List Char → List Char → Bool
  | [], _ => true
  | _ :: _, [] => false
  | c :: cs, d :: ds => c == d && isPrefixCh cs ds

/-- Consume a literal from the head, returning the remainder. -/
def stripLitCh : List Char → List Char → Option (List Char)
  | [], l => some l
  | _ :: _, [] => none
  | c :: cs, d :: ds => if c == d then stripLitCh cs ds else none

/-- Substring occurrence test (what `re.search` does for a fully escaped
pattern). -/
def hasSubstrCh (needle : List Char) : List Char → Bool
  | [] => needle.isEmpty
  | d :: ds => isPrefixCh needle (d :: ds) || hasSubstrCh needle ds

/-- Substring occurrence test on strings, also Python's `needle in hay`. -/
def hasSubstr (needle hay : String) : Bool :=
  hasSubstrCh needle.data hay.data

/-- Suffix test. -/
def isSuffixCh (suffix hay : List Char) : Bool :=
  isPrefixCh suffix.reverse hay.reverse

/-- The characters Python's `\s` (and `str.strip()`) treat as whitespace
(ASCII fragment; the documents and rules contain no exotic whitespace). -/
def pyIsSpace (c : Char) : Bool :=
  c == ' ' || c == '\t' || c == '\n' || c == '\r' || c == '\x0b' || c == '\x0c'

/-- Match `\s*` followed by the literal `w` at the head; the disjunction
realises the regex's backtracking. -/
def spacesThen (w : List Char) : List Char → Bool
  | [] => w.isEmpty
  | c :: r => isPrefixCh w (c :: r) || (pyIsSpace c && spacesThen w r)

/-- Match `virtual\)?\s*w` at the head. -/
def afterVirtual (w : List Char) (l : List Char) : Bool :=
  match stripLitCh "virtual".data l with
  | none => false
  | some rest =>
    (match rest with
     | ')' :: r2 => spacesThen w r2
     | _ => false) || spacesThen w rest

/-- Match `\(?virtual\)?\s*w` at the head. -/
def virtAt (w : List Char) (l : List Char) : Bool :=
  (match l with
   | '(' :: r => afterVirtual w r
   | _ => false) || afterVirtual w l

/-- After `crate-` and at least one non-`/` character: keep consuming
non-`/` characters; at the first `/`, the literal subpath must follow
(the `[^/]+` run cannot cross a `/`, so no other split can match). -/
def crateTail (sub : List Char) : List Char → Bool
  | [] => false
  | c :: r => if c == '/' then isPrefixCh sub r else crateTail sub r

/-- Match `crate-[^/]+/subpath` at the head. -/
def crateAt (crate sub : List Char) (l : List Char) : Bool :=
  match stripLitCh crate l with
  | none => false
  | some rest =>
    match rest with
    | '-' :: r2 =>
      (match r2 with
       | [] => false
       | c :: r3 => if c == '/' then false else crateTail sub r3)
    | _ => false

/-- Try a head-matcher at every position of the haystack (`re.search`). -/
def anyPosCh (f : List Char → Bool) : List Char → Bool
  | [] => f []
  | c :: r => f (c :: r) || anyPosCh f r

/-- The four shapes of compiled pattern `load_filter_patterns` ever
builds: a fully escaped literal (rule-file lines without `/`, and two of
the hardcoded rules), `/Cargo\.lock$`, the two `\(?virtual\)?\s*…` marker
rules, and `crate-[^/]+/subpath` for rule-file lines containing `/`. -/
inductive Pat where
  | lit : String → Pat
  | dollarSuffix : String → Pat
  | virtualWord : String → Pat
  | crateRule : String → String → Pat
  deriving Repr, DecidableEq

/-- `pattern.search(s) is not None` for the shapes above.  `$` matches at
the end of the string or before one trailing newline. -/
def Pat.search : Pat → String → Bool
  | .lit t, s => hasSubstr t s
  | .dollarSuffix t, s =>
    isSuffixCh t.data s.data || isSuffixCh (t.data ++ ['\n']) s.data
  | .virtualWord w, s => anyPosCh (virtAt w.data) s.data
  | .crateRule c sub, s => anyPosCh (crateAt c.data sub.data) s.data

/-! ## `load_filter_patterns` (lines 17–46) -/

/-- The five hardcoded rules appended after the rule-file lines
(lines 39–44). -/
def builtinFilters : List Pat :=
  [ .virtualWord "lockbud",
    .virtualWord "audit",
    .dollarSuffix "/Cargo.lock",
    .lit "[lockbud] Not supported to display yet.",
    .lit "rustlib/src/rust/library" ]

/-- `line.strip()` (ASCII whitespace). -/
def pyStrip (s : String) : String :=
  ⟨((s.data.dropWhile pyIsSpace).reverse.dropWhile pyIsSpace).reverse⟩

/-- `s.split(sep, 1)`: split at the first occurrence of `sep`, `none`
when `sep` does not occur. -/
def splitFirstCh (sep : Char) : List Char → Option (List Char × List Char)
  | [] => none
  | c :: r =>
    if c == sep then some ([], r)
    else
      match splitFirstCh sep r with
      | some (pre, rest) => some (c :: pre, rest)
      | none => none

/-- Compile one rule-file line (lines 27–37): strip it, skip it when
blank; with a `/`, split off the part before the first `/`, keep only its
part before the first `-` as the crate name, and build the
`crate-[^/]+/subpath` pattern; otherwise escape the whole line. -/
def compileLine (line : String) : Option Pat :=
  let path := pyStrip line
  if path.data.isEmpty then none
  else
    match splitFirstCh '/' path.data with
    | some (pre, sub) =>
      some (.crateRule ⟨pre.takeWhile (fun c => !(c == '-'))⟩ ⟨sub⟩)
    | none => some (.lit path)

/-- `load_filter_patterns`, over the list of lines of the rule file. -/
def load_filter_patterns (lines : List String) : List Pat :=
  lines.filterMap compileLine ++ builtinFilters

/-! ## Python primitives used by `apply_filter` -/

/-- First value bound to a key in an object's entry list. -/
def lookupObj (kvs : List (String × Json)) (k : String) : Option Json :=
  match kvs with
  | [] => none
  | (k', v) :: rest => if k' == k then some v else lookupObj rest k

/-- Python `x.get(key, default)`: `AttributeError` unless `x` is a dict. -/
def pyGet (x : Json) (k : String) (d : Json) : Except PyErr Json :=
  match x with
  | .obj kvs => .ok ((lookupObj kvs k).getD d)
  | _ => .error .attributeError

/-- `x[key] = v` on a dict: replace the value at the first occurrence of
the key, else append a new entry at the end (insertion order). -/
def setKVs (kvs : List (String × Json)) (k : String) (v : Json) :
    List (String × Json) :=
  match kvs with
  | [] => [(k, v)]
  | (k', v') :: rest =>
    if k' == k then (k', v) :: rest else (k', v') :: setKVs rest k v

/-- `x[key] = v`; only ever reached with `x` a dict. -/
def setKey (x : Json) (k : String) (v : Json) : Json :=
  match x with
  | .obj kvs => .obj (setKVs kvs k v)
  | other => other

/-- Python `for x in v`: lists yield their elements, strings their
characters (as one-character strings), dicts their keys; other values
raise `TypeError`. -/
def pyElems (v : Json) : Except PyErr (List Json) :=
  match v with
  | .arr xs => .ok xs
  | .str s => .ok (s.data.map (fun c => Json.str (String.singleton c)))
  | .obj kvs => .ok (kvs.map (fun kv => Json.str kv.1))
  | _ => .error .typeError

/-- Python hashability of parsed-JSON values: lists and dicts are
unhashable (`TypeError` as dict key or set member). -/
def hashable (v : Json) : Bool :=
  match v with
  | .arr _ => false
  | .obj _ => false
  | _ => true

/-- Python `needle in x` for a string needle: substring test on strings,
element membership on lists, key membership on dicts; `TypeError`
otherwise. -/
def pyContainsStr (needle : String) (x : Json) : Except PyErr Bool :=
  match x with
  | .str s => .ok (hasSubstr needle s)
  | .arr xs =>
    .ok (xs.any (fun v => match v with | .str s => s == needle | _ => false))
  | .obj kvs => .ok (kvs.any (fun kv => kv.1 == needle))
  | _ => .error .typeError

/-! ## `apply_filter` (lines 60–106) -/

/-- `any(regex.search(report.get("file", "")) for regex in filters)`:
with a non-empty filter list the first `search` raises `TypeError` when
the file value is not a string; with an empty filter list `any` over an
empty generator is `False` and `search` is never called. -/
def matchesAny (filters : List Pat) (file : Json) : Except PyErr Bool :=
  match filters with
  | [] => .ok false
  | _ :: _ =>
    match file with
    | .str s => .ok (filters.any (fun p => p.search s))
    | _ => .error .typeError

/-- The list comprehension of lines 75–78: keep the reports whose `file`
field (defaulting to `""`) matches none of the filters. -/
def filterReports (filters : List Pat) : List Json → Except PyErr (List Json)
  | [] => .ok []
  | r :: rs => do
    let file ← pyGet r "file" (Json.str "")
    let m ← matchesAny filters file
    let rest ← filterReports filters rs
    pure (if m then rest else r :: rest)

/-- `file in all_files_pkg` (dict keyed by the reports' file values). -/
def afMem (af : List (Json × List Json)) (file : Json) : Bool :=
  af.any (fun e => e.1 == file)

/-- `all_files_pkg[file].add(pkg_name)`. -/
def afAdd (af : List (Json × List Json)) (file : Json) (pkg : Json) :
    List (Json × List Json) :=
  af.map (fun e =>
    if e.1 == file then
      (e.1, if e.2.contains pkg then e.2 else e.2 ++ [pkg])
    else e)

/-- The inner `for raw_report in filtered:` loop of lines 79–91,
threading `all_files_pkg`, `valid_packages` and the current (in-place
mutated) `package`.  `filtered` is the fixed comprehension result; the
first argument list is the suffix still to be walked. -/
def reportLoop (pkgName : Json) (filtered : List Json) :
    List Json → List (Json × List Json) → List Json → Json →
    Except PyErr (List (Json × List Json) × List Json × Json)
  | [], af, valid, package => .ok (af, valid, package)
  | r :: rs, af, valid, package => do
    let file ← pyGet r "file" (Json.str "")
    if !hashable file then
      .error .typeError
    else if afMem af file then
      if !hashable pkgName then .error .typeError
      else reportLoop pkgName filtered rs (afAdd af file pkgName) valid package
    else
      if !hashable pkgName then .error .typeError
      else
        let af' := af ++ [(file, [pkgName])]
        let count := filtered.length
        if count > 0 then
          let package' :=
            setKey (setKey package "raw_reports" (Json.arr filtered)) "count"
              (Json.num count)
          let valid' :=
            if valid.contains package' then valid else valid ++ [package']
          reportLoop pkgName filtered rs af' valid' package'
        else
          reportLoop pkgName filtered rs af' valid package

/-- The outer `for package in data.get("data", []):` loop of lines 72–91.
Returns the final `all_files_pkg`, `valid_packages`, and the package list
with the in-place mutations applied (the same list object the second
pass re-iterates). -/
def packageLoop (filters : List Pat) :
    List Json → List (Json × List Json) → List Json →
    Except PyErr (List (Json × List Json) × List Json × List Json)
  | [], af, valid => .ok (af, valid, [])
  | p :: ps, af, valid => do
    let pkgName ← pyGet p "pkg" (Json.str "")
    let rawReports ← pyGet p "raw_reports" (Json.arr [])
    let reports ← pyElems rawReports
    let filtered ← filterReports filters reports
    let (af', valid', p') ← reportLoop pkgName filtered filtered af valid p
    let (af'', valid'', ps') ← packageLoop filters ps af' valid'
    pure (af'', valid'', p' :: ps')

/-- The inner scan of the second pass (lines 97–101): the first report
whose `file` value contains `Cargo.lock`. -/
def scanReports : List Json → Except PyErr (Option Json)
  | [] => .ok none
  | r :: rs => do
    let file ← pyGet r "file" (Json.str "")
    let c ← pyContainsStr "Cargo.lock" file
    if c then pure (some r) else scanReports rs

/-- The second pass of lines 93–103 over the (mutated) package list:
append the first `Cargo.lock` report to `valid_packages` and stop at the
first package yielding one. -/
def lockLoop : List Json → List Json → Except PyErr (List Json)
  | [], valid => .ok valid
  | p :: ps, valid => do
    let _ ← pyGet p "pkg" (Json.str "")
    let rawReports ← pyGet p "raw_reports" (Json.arr [])
    let reports ← pyElems rawReports
    let found ← scanReports reports
    match found with
    | some r => pure (valid ++ [r])
    | none => lockLoop ps valid

/-- `apply_filter(data, filters)` (lines 60–106): the document after the
in-place mutation, or the Python error the call raises.  The second pass
re-reads `data["data"]`, whose packages the first pass has already
mutated in place. -/
def apply_filter (data : Json) (filters : List Pat) : Except PyErr Json := do
  let c ← pyContainsStr "data" data
  if !c then
    pure data
  else do
    let dataVal ← pyGet data "data" (Json.arr [])
    let packages ← pyElems dataVal
    let (_af, valid, mutated) ← packageLoop filters packages [] []
    let valid' ← lockLoop mutated valid
    pure (setKey data "data" (Json.arr valid'))

/-! ## Total readers used to state the properties -/

/-- The first value bound to a key of an object, `none` otherwise. -/
def lookupJ (p : Json) (k : String) : Option Json :=
  match p with
  | .obj kvs => lookupObj kvs k
  | _ => none

/-- `x.get(k, d)` as a total function. -/
def getJD (p : Json) (k : String) (d : Json) : Json :=
  (lookupJ p k).getD d

/-- A report's `file` value (`report.get("file", "")`). -/
def fileVal (r : Json) : Json :=
  getJD r "file" (.str "")

/-- A JSON value as the string the filter compares, defaulting to the
empty string. -/
def strOfVal (v : Json) : String :=
  match v with
  | .str s => s
  | _ => ""

/-- A report's `file` field as the string the filter compares, defaulting
to the empty string. -/
def fileStr (r : Json) : String :=
  strOfVal (fileVal r)

/-- `for x in v` as a total function (`[]` on non-iterables). -/
def elemsTotal (v : Json) : List Json :=
  match v with
  | .arr xs => xs
  | .str s => s.data.map (fun c => Json.str (String.singleton c))
  | .obj kvs => kvs.map (fun kv => Json.str kv.1)
  | _ => []

/-- The report list the second pass reads from a package. -/
def reportsOfPkg (p : Json) : List Json :=
  elemsTotal (getJD p "raw_reports" (.arr []))

/-- `needle in x` as a total Boolean (`false` on the values where Python
would raise instead). -/
def containsTotal (needle : String) (x : Json) : Bool :=
  match x with
  | .str s => hasSubstr needle s
  | .arr xs => xs.any (fun v => match v with | .str s => s == needle | _ => false)
  | .obj kvs => kvs.any (fun kv => kv.1 == needle)
  | _ => false

/-- `"Cargo.lock" in report.get("file", "")` as a total Boolean. -/
def lockHit (r : Json) : Bool :=
  containsTotal "Cargo.lock" (fileVal r)

/-- The first report, in package-and-report iteration order over a given
package list, whose `file` contains `Cargo.lock`: what the second pass of
`apply_filter` appends — the amended C2 states that the package list it
is applied to is the list *as mutated by the first pass*. -/
def firstLockfileReport (pkgs : List Json) : Option Json :=
  pkgs.findSome? (fun p => (reportsOfPkg p).find? lockHit)

/-- Does an emitted entry carry a report on file `f`? -/
def hasReportOn (p : Json) (f : String) : Bool :=
  (reportsOfPkg p).any (fun r => fileStr r == f)

/-- The invariant claim C4 states for one retained package entry: its
`raw_reports` holds only reports whose `file` (defaulting to `""`)
matches none of the compiled rules, and `count` is its length. -/
def GoodPkg (fs : List Pat) (p : Json) : Prop :=
  ∃ reports : List Json,
    lookupJ p "raw_reports" = some (.arr reports) ∧
    lookupJ p "count" = some (.num reports.length) ∧
    ∀ r ∈ reports, ∀ pat ∈ fs, pat.search (fileStr r) = false

/-! ## Concrete documents for the counterexamples and examples -/

/-- The input document of claim C1. -/
def c1Doc : Json :=
  .obj [("data", .arr [.obj [("pkg", .str "p1"),
    ("raw_reports", .arr [.obj [("file", .str "x/Cargo.lock")],
                          .obj [("file", .str "src/main.rs")]])]])]

/-- The output C1 predicts: only the bare lockfile finding. -/
def c1Claimed : Json :=
  .obj [("data", .arr [.obj [("file", .str "x/Cargo.lock")]])]

/-- The output the code produces on `c1Doc`: only the mutated survivor
package.  The second pass re-reads `raw_reports` after the first pass has
replaced it with the filtered list `[src/main.rs]`, so it finds no
`Cargo.lock` report and appends nothing. -/
def c1Actual : Json :=
  .obj [("data", .arr [.obj [("pkg", .str "p1"),
    ("raw_reports", .arr [.obj [("file", .str "src/main.rs")]]),
    ("count", .num 1)]])]

/-- The input document of the C2 counterexample: the original report list
contains `a/Cargo.lock`, but it is filtered away and the mutated list the
second pass reads no longer contains it. -/
def c2Doc : Json :=
  .obj [("data", .arr [.obj [("pkg", .str "q"),
    ("raw_reports", .arr [.obj [("file", .str "a/Cargo.lock")],
                          .obj [("file", .str "keep.rs")]])]])]

/-- The output the code produces on `c2Doc`: no bare report appended. -/
def c2Actual : Json :=
  .obj [("data", .arr [.obj [("pkg", .str "q"),
    ("raw_reports", .arr [.obj [("file", .str "keep.rs")]]),
    ("count", .num 1)]])]

/-- The input document of the C3 counterexample: its only report is
filtered away, so the package is dropped but its (unmutated) report list
still feeds the lockfile pass. -/
def c3Doc : Json :=
  .obj [("data", .arr [.obj [("pkg", .str "p1"),
    ("raw_reports", .arr [.obj [("file", .str "b/Cargo.lock")]])]])]

/-- First application: the data list becomes the bare lockfile finding. -/
def c3Out1 : Json :=
  .obj [("data", .arr [.obj [("file", .str "b/Cargo.lock")]])]

/-- Second application: the bare finding has no `raw_reports`, so both
passes drop it and the data list becomes empty. -/
def c3Out2 : Json :=
  .obj [("data", .arr [])]

/-- The input document of the C5 counterexample. -/
def c5Doc : Json :=
  .obj [("data", .arr [.obj [("pkg", .str "a"),
    ("raw_reports", .arr [.obj [("file", .str "c/Cargo.lock")]])]])]

/-- The input document of the C6 counterexample: packages A and B share
the surviving file `shared/dep.rs`, and B also has a fresh file. -/
def c6Doc : Json :=
  .obj [("data", .arr [
    .obj [("pkg", .str "A"),
      ("raw_reports", .arr [.obj [("file", .str "shared/dep.rs")]])],
    .obj [("pkg", .str "B"),
      ("raw_reports", .arr [.obj [("file", .str "shared/dep.rs")],
                            .obj [("file", .str "other.rs")]])]])]

/-- The first survivor emitted for `c6Doc`. -/
def c6A : Json :=
  .obj [("pkg", .str "A"),
    ("raw_reports", .arr [.obj [("file", .str "shared/dep.rs")]]),
    ("count", .num 1)]

/-- The second survivor emitted for `c6Doc`: appended because `other.rs`
is fresh, with its full filtered list still containing the shared file. -/
def c6B : Json :=
  .obj [("pkg", .str "B"),
    ("raw_reports", .arr [.obj [("file", .str "shared/dep.rs")],
                          .obj [("file", .str "other.rs")]]),
    ("count", .num 2)]

/-- A document whose report and package records miss the `file` and
`pkg` fields (C8's well-formed-but-sparse case). -/
def c8MissingDoc : Json :=
  .obj [("data", .arr [.obj [("raw_reports", .arr [.obj []])]])]

/-- `c8MissingDoc` after filtering: the fields defaulted to `""`, no
error. -/
def c8MissingOut : Json :=
  .obj [("data", .arr [.obj [("raw_reports", .arr [.obj []]),
    ("count", .num 1)]])]

/-- The input document of claim C10: the file is exactly `Cargo.lock`,
with no preceding slash. -/
def c10Doc : Json :=
  .obj [("data", .arr [.obj [("pkg", .str "p"),
    ("raw_reports", .arr [.obj [("file", .str "Cargo.lock")]])]])]

/-- The surviving package emitted for `c10Doc`. -/
def c10Pkg : Json :=
  .obj [("pkg", .str "p"),
    ("raw_reports", .arr [.obj [("file", .str "Cargo.lock")]]),
    ("count", .num 1)]

/-- The report of `c10Doc`, emitted a second time as the bare lockfile
finding. -/
def c10Rep : Json :=
  .obj [("file", .str "Cargo.lock")]

/-! ## Helper lemmas -/

@[simp]
theorem error_bind {α β : Type} (e : PyErr) (f : α → Except PyErr β) :
    (Except.error e >>= f) = Except.error e := rfl

@[simp]
theorem ok_bind {α β : Type} (a : α) (f : α → Except PyErr β) :
    (Except.ok a >>= f) = f a := rfl

theorem pyGet_ok {x : Json} {k : String} {d v : Json}
    (h : pyGet x k d = .ok v) : v = getJD x k d ∧ ∃ kvs, x = .obj kvs := by
  cases x <;> simp_all [pyGet, getJD, lookupJ]

theorem pyElems_ok {v : Json} {l : List Json} (h : pyElems v = .ok l) :
    l = elemsTotal v := by
  cases v <;> simp_all [pyElems, elemsTotal]

theorem pyContainsStr_ok {n : String} {x : Json} {b : Bool}
    (h : pyContainsStr n x = .ok b) : containsTotal n x = b := by
  cases x <;> simp_all [pyContainsStr, containsTotal]

theorem lookupObj_none_any {kvs : List (String × Json)} {k : String}
    (h : lookupObj kvs k = none) : kvs.any (fun kv => kv.1 == k) = false := by
  induction kvs with
  | nil => simp
  | cons kv rest ih =>
    obtain ⟨k', v⟩ := kv
    simp only [lookupObj] at h
    by_cases hk : (k' == k) = true
    · rw [if_pos hk] at h
      exact absurd h (by simp)
    · rw [if_neg hk] at h
      simp only [List.any_cons, Bool.or_eq_false_iff]
      exact ⟨by simpa using hk, ih h⟩

theorem lookupObj_setKVs_ne {kvs : List (String × Json)} {k k' : String}
    {v : Json} (h : k' ≠ k) :
    lookupObj (setKVs kvs k v) k' = lookupObj kvs k' := by
  induction kvs with
  | nil => simp [setKVs, lookupObj, Ne.symm h]
  | cons kv rest ih =>
    obtain ⟨k'', v''⟩ := kv
    by_cases hk : (k'' == k) = true
    · have hkk : k'' = k := by simpa using hk
      subst hkk
      simp [setKVs, lookupObj, Ne.symm h]
    · by_cases hc : (k'' == k') = true
      · simp [setKVs, hk, lookupObj, hc]
      · simp [setKVs, hk, lookupObj, hc, ih]

theorem lookupObj_setKVs_self {kvs : List (String × Json)} (k : String)
    (v : Json) : lookupObj (setKVs kvs k v) k = some v := by
  induction kvs with
  | nil => simp [setKVs, lookupObj]
  | cons kv rest ih =>
    obtain ⟨k'', v''⟩ := kv
    by_cases hk : (k'' == k) = true
    · simp [setKVs, hk, lookupObj]
    · simp [setKVs, hk, lookupObj, ih]

theorem setKVs_noop {kvs : List (String × Json)} {k : String} {v : Json}
    (h : lookupObj kvs k = some v) : setKVs kvs k v = kvs := by
  induction kvs with
  | nil => simp [lookupObj] at h
  | cons kv rest ih =>
    obtain ⟨k'', v''⟩ := kv
    simp only [lookupObj] at h
    by_cases hk : (k'' == k) = true
    · rw [if_pos hk] at h
      simp only [Option.some_inj] at h
      simp [setKVs, hk, h]
    · rw [if_neg hk] at h
      simp [setKVs, hk, ih h]

theorem matchesAny_ok_false {fs : List Pat} {fv : Json}
    (h : matchesAny fs fv = .ok false) :
    ∀ pat ∈ fs, pat.search (strOfVal fv) = false := by
  cases fs with
  | nil => simp
  | cons p0 ps =>
    cases fv with
    | str s =>
      simp only [matchesAny, Except.ok.injEq] at h
      intro pat hpat
      have hs : strOfVal (.str s) = s := rfl
      rw [hs]
      simpa using List.any_eq_false.mp h pat hpat
    | null => simp [matchesAny] at h
    | bool b => simp [matchesAny] at h
    | num n => simp [matchesAny] at h
    | arr xs => simp [matchesAny] at h
    | obj kvs => simp [matchesAny] at h

/-- Every report a successful comprehension keeps is a dict whose file
value matches no rule. -/
theorem filterReports_ok_mem {fs : List Pat} :
    ∀ {l out : List Json}, filterReports fs l = .ok out →
    ∀ r ∈ out, (∃ kvs, r = Json.obj kvs) ∧ matchesAny fs (fileVal r) = .ok false
  | [], out, h => by
    simp only [filterReports, Except.ok.injEq] at h
    subst h
    simp
  | r0 :: rs, out, h => by
    rw [filterReports] at h
    cases hg : pyGet r0 "file" (.str "") with
    | error e => rw [hg] at h; simp at h
    | ok fv =>
      rw [hg] at h
      simp only [ok_bind] at h
      obtain ⟨hfv, kvs, hr0⟩ := pyGet_ok hg
      cases hm : matchesAny fs fv with
      | error e => rw [hm] at h; simp at h
      | ok m =>
        rw [hm] at h
        simp only [ok_bind] at h
        cases hrest : filterReports fs rs with
        | error e => rw [hrest] at h; simp at h
        | ok rest =>
          rw [hrest] at h
          simp only [ok_bind, pure, Except.pure, Except.ok.injEq] at h
          intro r hr
          cases m with
          | true =>
            rw [← h] at hr
            simp at hr
            exact filterReports_ok_mem hrest r hr
          | false =>
            rw [← h] at hr
            simp at hr
            rcases hr with hr | hr
            · subst hr
              refine ⟨⟨kvs, hr0⟩, ?_⟩
              have hfv2 : fileVal r = fv := by rw [hfv]; rfl
              rw [hfv2]
              exact hm
            · exact filterReports_ok_mem hrest r hr

/-- The inner report loop only ever appends to `valid_packages` the
current package mutated to its filtered list with the matching count, so
it preserves the C4 invariant. -/
theorem reportLoop_good {fs : List Pat} {pn : Json} {filtered : List Json}
    (hfil : ∀ r ∈ filtered, ∀ pat ∈ fs, pat.search (fileStr r) = false) :
    ∀ (rs : List Json) (af : List (Json × List Json)) (valid : List Json)
      (kvs : List (String × Json)) (af2 : List (Json × List Json))
      (valid2 : List Json) (p2 : Json),
      reportLoop pn filtered rs af valid (.obj kvs) = .ok (af2, valid2, p2) →
      (∀ q ∈ valid, GoodPkg fs q) →
      ∀ q ∈ valid2, GoodPkg fs q
  | [], af, valid, kvs, af2, valid2, p2, h, hv => by
    simp only [reportLoop, Except.ok.injEq, Prod.mk.injEq] at h
    obtain ⟨h1, h2, h3⟩ := h
    subst h2
    exact hv
  | r :: rs, af, valid, kvs, af2, valid2, p2, h, hv => by
    rw [reportLoop] at h
    cases hg : pyGet r "file" (.str "") with
    | error e => rw [hg] at h; simp at h
    | ok fv =>
      rw [hg] at h
      simp only [ok_bind] at h
      by_cases hh : hashable fv = true
      · rw [hh] at h
        simp only [Bool.not_true, Bool.false_eq_true, if_false] at h
        by_cases ham : afMem af fv = true
        · rw [ham] at h
          simp only [if_true] at h
          by_cases hpn : hashable pn = true
          · rw [hpn] at h
            simp only [Bool.not_true, Bool.false_eq_true, if_false] at h
            exact reportLoop_good hfil rs (afAdd af fv pn) valid kvs af2 valid2 p2 h hv
          · simp only [Bool.not_eq_true] at hpn
            rw [hpn] at h
            simp at h
        · simp only [Bool.not_eq_true] at ham
          rw [ham] at h
          simp only [Bool.false_eq_true, if_false] at h
          by_cases hpn : hashable pn = true
          · rw [hpn] at h
            simp only [Bool.not_true, Bool.false_eq_true, if_false] at h
            by_cases hcnt : filtered.length > 0
            · simp only [if_pos hcnt, setKey] at h
              refine reportLoop_good hfil rs (af ++ [(fv, [pn])]) _
                (setKVs (setKVs kvs "raw_reports" (.arr filtered)) "count"
                  (.num filtered.length)) af2 valid2 p2 h ?_
              intro q hq
              by_cases hmem : (valid.contains
                  (Json.obj (setKVs (setKVs kvs "raw_reports" (.arr filtered))
                    "count" (.num filtered.length)))) = true
              · rw [if_pos hmem] at hq
                exact hv q hq
              · rw [if_neg hmem] at hq
                rcases List.mem_append.mp hq with hq | hq
                · exact hv q hq
                · simp only [List.mem_singleton] at hq
                  subst hq
                  refine ⟨filtered, ?_, ?_, hfil⟩
                  · simp only [lookupJ]
                    rw [lookupObj_setKVs_ne (by decide)]
                    exact lookupObj_setKVs_self _ _
                  · simp only [lookupJ]
                    exact lookupObj_setKVs_self _ _
            · simp only [if_neg hcnt] at h
              exact reportLoop_good hfil rs (af ++ [(fv, [pn])]) valid kvs af2
                valid2 p2 h hv
          · simp only [Bool.not_eq_true] at hpn
            rw [hpn] at h
            simp at h
      · simp only [Bool.not_eq_true] at hh
        rw [hh] at h
        simp at h

/-- The outer package loop preserves the C4 invariant on
`valid_packages`. -/
theorem packageLoop_good {fs : List Pat} :
    ∀ (ps : List Json) (af : List (Json × List Json)) (valid : List Json)
      (af2 : List (Json × List Json)) (valid2 muts : List Json),
      packageLoop fs ps af valid = .ok (af2, valid2, muts) →
      (∀ q ∈ valid, GoodPkg fs q) →
      ∀ q ∈ valid2, GoodPkg fs q
  | [], af, valid, af2, valid2, muts, h, hv => by
    simp only [packageLoop, Except.ok.injEq, Prod.mk.injEq] at h
    obtain ⟨h1, h2, h3⟩ := h
    subst h2
    exact hv
  | p :: ps, af, valid, af2, valid2, muts, h, hv => by
    rw [packageLoop] at h
    cases hg1 : pyGet p "pkg" (.str "") with
    | error e => rw [hg1] at h; simp at h
    | ok pn =>
      rw [hg1] at h
      simp only [ok_bind] at h
      cases hg2 : pyGet p "raw_reports" (.arr []) with
      | error e => rw [hg2] at h; simp at h
      | ok rr =>
        rw [hg2] at h
        simp only [ok_bind] at h
        obtain ⟨hrr, kvs, hp⟩ := pyGet_ok hg2
        cases he : pyElems rr with
        | error e => rw [he] at h; simp at h
        | ok reports =>
          rw [he] at h
          simp only [ok_bind] at h
          cases hf : filterReports fs reports with
          | error e => rw [hf] at h; simp at h
          | ok filtered =>
            rw [hf] at h
            simp only [ok_bind] at h
            have hfil : ∀ r ∈ filtered, ∀ pat ∈ fs,
                pat.search (fileStr r) = false := by
              intro r hr pat hpat
              have hmem := filterReports_ok_mem hf r hr
              have := matchesAny_ok_false hmem.2 pat hpat
              rw [fileStr]
              exact this
            subst hp
            cases hrl : reportLoop pn filtered filtered af valid (.obj kvs) with
            | error e => rw [hrl] at h; simp at h
            | ok t1 =>
              rw [hrl] at h
              obtain ⟨af1, valid1, p1⟩ := t1
              simp only [ok_bind] at h
              cases hpl : packageLoop fs ps af1 valid1 with
              | error e => rw [hpl] at h; simp at h
              | ok t2 =>
                rw [hpl] at h
                obtain ⟨afx, validx, psx⟩ := t2
                simp only [ok_bind, pure, Except.pure, Except.ok.injEq,
                  Prod.mk.injEq] at h
                obtain ⟨hx1, hx2, hx3⟩ := h
                subst hx2
                have hv1 : ∀ q ∈ valid1, GoodPkg fs q :=
                  reportLoop_good hfil filtered af valid kvs af1 valid1 p1 hrl hv
                exact packageLoop_good ps af1 valid1 afx validx psx hpl hv1

/-- A successful `apply_filter` run on a document containing `data`
decomposes into the two passes and ends by rebinding `data` to the final
`valid_packages`. -/
theorem apply_filter_run {doc dv : Json} {fs : List Pat} {pkgs : List Json}
    {af : List (Json × List Json)} {valid mutated out : List Json}
    (h1 : pyContainsStr "data" doc = .ok true)
    (h2 : pyGet doc "data" (.arr []) = .ok dv)
    (h3 : pyElems dv = .ok pkgs)
    (h4 : packageLoop fs pkgs [] [] = .ok (af, valid, mutated))
    (h5 : lockLoop mutated valid = .ok out) :
    apply_filter doc fs = .ok (setKey doc "data" (.arr out)) := by
  unfold apply_filter
  rw [h1]
  simp only [ok_bind, Bool.not_true, Bool.false_eq_true, if_false]
  rw [h2]
  simp only [ok_bind]
  rw [h3]
  simp only [ok_bind]
  rw [h4]
  simp only [ok_bind]
  rw [h5]
  simp [pure, Except.pure]

/-- The inner scan of the second pass finds exactly the first report
satisfying the (totalised) `Cargo.lock` membership test. -/
theorem scanReports_ok : ∀ (rs : List Json) (o : Option Json),
    scanReports rs = .ok o → rs.find? lockHit = o
  | [], o, h => by
    simp [scanReports] at h
    exact h
  | r :: rs, o, h => by
    rw [scanReports] at h
    cases hg : pyGet r "file" (.str "") with
    | error e => rw [hg] at h; simp at h
    | ok v =>
      rw [hg] at h
      simp only [ok_bind] at h
      obtain ⟨hv, kvs, hr⟩ := pyGet_ok hg
      subst hv
      cases hc : pyContainsStr "Cargo.lock" (getJD r "file" (.str "")) with
      | error e => rw [hc] at h; simp at h
      | ok b =>
        rw [hc] at h
        simp only [ok_bind] at h
        have hb : lockHit r = b := pyContainsStr_ok hc
        cases b with
        | true =>
          simp [pure, Except.pure] at h
          simp [List.find?, hb, h]
        | false =>
          simp at h
          rw [List.find?]
          simp [hb]
          exact scanReports_ok rs o h

/-- The second pass appends exactly the first `Cargo.lock` report of the
package list it is given (and nothing when there is none). -/
theorem lockLoop_ok : ∀ (ps valid out : List Json),
    lockLoop ps valid = .ok out →
    out = valid ++ (firstLockfileReport ps).toList
  | [], valid, out, h => by
    simp [lockLoop] at h
    simp [firstLockfileReport, List.findSome?, h.symm]
  | p :: ps, valid, out, h => by
    rw [lockLoop] at h
    cases hg1 : pyGet p "pkg" (.str "") with
    | error e => rw [hg1] at h; simp at h
    | ok v1 =>
      rw [hg1] at h
      simp only [ok_bind] at h
      cases hg2 : pyGet p "raw_reports" (.arr []) with
      | error e => rw [hg2] at h; simp at h
      | ok rr =>
        rw [hg2] at h
        simp only [ok_bind] at h
        obtain ⟨hrr, kvs, hp⟩ := pyGet_ok hg2
        cases he : pyElems rr with
        | error e => rw [he] at h; simp at h
        | ok reports =>
          rw [he] at h
          simp only [ok_bind] at h
          have hrep : reports = reportsOfPkg p := by
            rw [pyElems_ok he, hrr, reportsOfPkg]
          cases hs : scanReports reports with
          | error e => rw [hs] at h; simp at h
          | ok found =>
            rw [hs] at h
            simp only [ok_bind] at h
            have hf : reports.find? lockHit = found := scanReports_ok reports found hs
            cases found with
            | some r =>
              simp [pure, Except.pure] at h
              rw [firstLockfileReport, List.findSome?]
              rw [hrep] at hf
              simp [hf, h.symm]
            | none =>
              simp at h
              rw [firstLockfileReport, List.findSome?]
              rw [hrep] at hf
              simp [hf]
              have := lockLoop_ok ps valid out h
              rw [this, firstLockfileReport]


theorem afMem_afAdd (af : List (Json × List Json)) (f pn fq : Json) :
    afMem (afAdd af f pn) fq = afMem af fq := by
  unfold afMem afAdd
  rw [List.any_map]
  congr 1
  funext e
  by_cases he : e.1 = f <;> simp [he]

theorem afMem_append_single (af : List (Json × List Json)) (f pn fq : Json) :
    afMem (af ++ [(f, [pn])]) fq = (afMem af fq || (f == fq)) := by
  simp [afMem]

theorem pyGet_obj_file {r : Json} {kv : List (String × Json)} (h : r = .obj kv) :
    pyGet r "file" (.str "") = .ok (fileVal r) := by
  subst h
  rfl

theorem reportLoop_steady (pn : Json) (ftd : List Json)
    (hpn : hashable pn = true) (P : Json)
    (hfix : setKey (setKey P "raw_reports" (.arr ftd)) "count"
      (.num ftd.length) = P) :
    ∀ (rs : List Json) (af : List (Json × List Json)) (valid : List Json),
      (∀ r ∈ rs, ∃ kv : List (String × Json), r = .obj kv) →
      (∀ r ∈ rs, hashable (fileVal r) = true) →
      valid.contains P = true →
      ∃ af2, reportLoop pn ftd rs af valid P = .ok (af2, valid, P) ∧
        ∀ fq, afMem af2 fq = (afMem af fq || rs.any (fun r => fileVal r == fq))
  | [], af, valid, hobj, hhash, hcont => by
    refine ⟨af, rfl, ?_⟩
    intro fq
    simp
  | r :: rs, af, valid, hobj, hhash, hcont => by
    rw [reportLoop]
    rw [pyGet_obj_file (hobj r (by simp)).choose_spec]
    simp only [ok_bind]
    rw [hhash r (by simp)]
    simp only [Bool.not_true, Bool.false_eq_true, if_false]
    by_cases ham : afMem af (fileVal r) = true
    · rw [ham]
      simp only [if_true, hpn, Bool.not_true, Bool.false_eq_true, if_false]
      obtain ⟨af2, hrun, hmem⟩ := reportLoop_steady pn ftd hpn P hfix rs
        (afAdd af (fileVal r) pn) valid
        (fun q hq => hobj q (by simp [hq]))
        (fun q hq => hhash q (by simp [hq])) hcont
      refine ⟨af2, hrun, ?_⟩
      intro fq
      rw [hmem fq, afMem_afAdd]
      by_cases hrq : (fileVal r == fq) = true
      · have : fileVal r = fq := eq_of_beq hrq
        subst this
        simp [ham]
      · simp only [List.any_cons]
        have hrq2 : (fileVal r == fq) = false := by simpa using hrq
        simp [hrq2]
    · simp only [Bool.not_eq_true] at ham
      rw [ham]
      simp only [Bool.false_eq_true, if_false, hpn, Bool.not_true]
      by_cases hcnt : ftd.length > 0
      · simp only [if_pos hcnt]
        rw [hfix, hcont]
        simp only [if_true]
        obtain ⟨af2, hrun, hmem⟩ := reportLoop_steady pn ftd hpn P hfix rs
          (af ++ [(fileVal r, [pn])]) valid
          (fun q hq => hobj q (by simp [hq]))
          (fun q hq => hhash q (by simp [hq])) hcont
        refine ⟨af2, hrun, ?_⟩
        intro fq
        rw [hmem fq, afMem_append_single]
        simp [Bool.or_assoc]
      · simp only [if_neg hcnt]
        obtain ⟨af2, hrun, hmem⟩ := reportLoop_steady pn ftd hpn P hfix rs
          (af ++ [(fileVal r, [pn])]) valid
          (fun q hq => hobj q (by simp [hq]))
          (fun q hq => hhash q (by simp [hq])) hcont
        refine ⟨af2, hrun, ?_⟩
        intro fq
        rw [hmem fq, afMem_append_single]
        simp [Bool.or_assoc]


theorem reportLoop_allSeen (pn : Json) (ftd : List Json)
    (hpn : hashable pn = true) (P : Json) :
    ∀ (rs : List Json) (af : List (Json × List Json)) (valid : List Json),
      (∀ r ∈ rs, ∃ kv : List (String × Json), r = .obj kv) →
      (∀ r ∈ rs, hashable (fileVal r) = true) →
      (∀ r ∈ rs, afMem af (fileVal r) = true) →
      ∃ af2, reportLoop pn ftd rs af valid P = .ok (af2, valid, P)
  | [], af, valid, hobj, hhash, hseen => ⟨af, rfl⟩
  | r :: rs, af, valid, hobj, hhash, hseen => by
    rw [reportLoop]
    rw [pyGet_obj_file (hobj r (by simp)).choose_spec]
    simp only [ok_bind]
    rw [hhash r (by simp)]
    simp only [Bool.not_true, Bool.false_eq_true, if_false]
    rw [hseen r (by simp)]
    simp only [if_true, hpn, Bool.not_true, Bool.false_eq_true, if_false]
    exact reportLoop_allSeen pn ftd hpn P rs (afAdd af (fileVal r) pn) valid
      (fun q hq => hobj q (by simp [hq]))
      (fun q hq => hhash q (by simp [hq]))
      (fun q hq => by rw [afMem_afAdd]; exact hseen q (by simp [hq]))

/-- Processing a package (obj `kvs`, name `pn`, filtered list `ftd ≠ []`)
from a state in which none of its files are recorded yet: the package is
mutated, appended exactly once, and all its files become recorded. -/
theorem reportLoop_freshPkg (pn : Json) (ftd : List Json)
    (hpn : hashable pn = true) (kvs : List (String × Json))
    (hobj : ∀ r ∈ ftd, ∃ kv : List (String × Json), r = .obj kv)
    (hhash : ∀ r ∈ ftd, hashable (fileVal r) = true)
    (hne : ftd ≠ []) :
    ∃ af2, reportLoop pn ftd ftd [] [] (.obj kvs) =
      .ok (af2,
        [.obj (setKVs (setKVs kvs "raw_reports" (.arr ftd)) "count"
          (.num ftd.length))],
        .obj (setKVs (setKVs kvs "raw_reports" (.arr ftd)) "count"
          (.num ftd.length))) ∧
      ∀ fq, afMem af2 fq = ftd.any (fun r => fileVal r == fq) := by
  cases hf : ftd with
  | nil => exact absurd hf hne
  | cons r rs =>
    rw [reportLoop]
    rw [pyGet_obj_file (hobj r (by rw [hf]; simp)).choose_spec]
    simp only [ok_bind]
    rw [hhash r (by rw [hf]; simp)]
    simp only [Bool.not_true, Bool.false_eq_true, if_false]
    have hm0 : afMem [] (fileVal r) = false := rfl
    rw [hm0]
    simp only [Bool.false_eq_true, if_false, hpn, Bool.not_true]
    have hcnt : ftd.length > 0 := by rw [hf]; simp
    rw [← hf]
    simp only [if_pos hcnt, setKey]
    simp only [Bool.false_eq_true, if_false, List.nil_append]
    have hfix : setKey (setKey
        (Json.obj (setKVs (setKVs kvs "raw_reports" (.arr ftd)) "count"
          (.num ftd.length))) "raw_reports" (.arr ftd)) "count"
        (.num ftd.length) =
        Json.obj (setKVs (setKVs kvs "raw_reports" (.arr ftd)) "count"
          (.num ftd.length)) := by
      simp only [setKey]
      have hrr : lookupObj (setKVs (setKVs kvs "raw_reports" (.arr ftd))
          "count" (.num ftd.length)) "raw_reports" = some (.arr ftd) := by
        rw [lookupObj_setKVs_ne (by decide)]
        exact lookupObj_setKVs_self _ _
      rw [setKVs_noop hrr]
      rw [setKVs_noop (lookupObj_setKVs_self _ _)]
    obtain ⟨af2, hrun, hmem⟩ := reportLoop_steady pn ftd hpn _ hfix rs
      [(fileVal r, [pn])]
      [Json.obj (setKVs (setKVs kvs "raw_reports" (.arr ftd)) "count"
        (.num ftd.length))]
      (fun q hq => hobj q (by rw [hf]; simp [hq]))
      (fun q hq => hhash q (by rw [hf]; simp [hq]))
      (by simp)
    refine ⟨af2, hrun, ?_⟩
    intro fq
    rw [hmem fq]
    rw [hf]
    simp [afMem]


/-- `package["raw_reports"] = filtered; package["count"] = len(filtered)`
as one mutation. -/
def mutPkg (p : Json) (ftd : List Json) : Json :=
  setKey (setKey p "raw_reports" (.arr ftd)) "count" (.num ftd.length)

theorem lookupObj_mutPkg_rr (kvs : List (String × Json)) (ftd : List Json) :
    lookupJ (mutPkg (.obj kvs) ftd) "raw_reports" = some (.arr ftd) := by
  simp only [mutPkg, setKey, lookupJ]
  rw [lookupObj_setKVs_ne (by decide)]
  exact lookupObj_setKVs_self _ _

theorem lookupObj_mutPkg_count (kvs : List (String × Json)) (ftd : List Json) :
    lookupJ (mutPkg (.obj kvs) ftd) "count" = some (.num ftd.length) := by
  simp only [mutPkg, setKey, lookupJ]
  exact lookupObj_setKVs_self _ _

theorem lookupObj_mutPkg_other (kvs : List (String × Json)) (ftd : List Json)
    (k : String) (h1 : k ≠ "raw_reports") (h2 : k ≠ "count") :
    lookupJ (mutPkg (.obj kvs) ftd) k = lookupObj kvs k := by
  simp only [mutPkg, setKey, lookupJ]
  rw [lookupObj_setKVs_ne h2, lookupObj_setKVs_ne h1]

theorem mutPkg_fix {p : Json} {ftd : List Json}
    (hrr : lookupJ p "raw_reports" = some (.arr ftd))
    (hcnt : lookupJ p "count" = some (.num ftd.length)) :
    mutPkg p ftd = p := by
  cases p with
  | obj kvs =>
    simp only [mutPkg, setKey, lookupJ] at hrr hcnt ⊢
    rw [setKVs_noop hrr]
    rw [setKVs_noop hcnt]
  | null => rfl
  | bool b => rfl
  | num n => rfl
  | str s => rfl
  | arr xs => rfl

theorem mutPkg_idem (p : Json) (ftd : List Json) :
    mutPkg (mutPkg p ftd) ftd = mutPkg p ftd := by
  cases p with
  | obj kvs =>
    exact mutPkg_fix (lookupObj_mutPkg_rr kvs ftd) (lookupObj_mutPkg_count kvs ftd)
  | null => rfl
  | bool b => rfl
  | num n => rfl
  | str s => rfl
  | arr xs => rfl

theorem reportsOfPkg_mutPkg (kvs : List (String × Json)) (ftd : List Json) :
    reportsOfPkg (mutPkg (.obj kvs) ftd) = ftd := by
  rw [reportsOfPkg, getJD, lookupObj_mutPkg_rr]
  rfl

/-- Reports that all pass the filter pass it again unchanged. -/
theorem filterReports_fix {fs : List Pat} :
    ∀ {l : List Json},
      (∀ r ∈ l, matchesAny fs (fileVal r) = .ok false ∧
        ∃ kv : List (String × Json), r = .obj kv) →
      filterReports fs l = .ok l
  | [], _ => rfl
  | r :: rs, h => by
    rw [filterReports]
    rw [pyGet_obj_file (h r (by simp)).2.choose_spec]
    simp only [ok_bind]
    rw [(h r (by simp)).1]
    simp only [ok_bind]
    rw [filterReports_fix (fun q hq => h q (by simp [hq]))]
    simp [pure, Except.pure]

theorem filterReports_ok_fix {fs : List Pat} {l out : List Json}
    (h : filterReports fs l = .ok out) : filterReports fs out = .ok out :=
  filterReports_fix (fun r hr =>
    ⟨(filterReports_ok_mem h r hr).2, (filterReports_ok_mem h r hr).1⟩)

/-- `setKVs` leaves a key present (for the second run's membership test). -/
theorem any_setKVs_self (kvs : List (String × Json)) (k : String) (v : Json) :
    (setKVs kvs k v).any (fun kv => kv.1 == k) = true := by
  induction kvs with
  | nil => simp [setKVs]
  | cons kv rest ih =>
    obtain ⟨k', v'⟩ := kv
    by_cases hk : (k' == k) = true
    · simp [setKVs, hk]
    · simp [setKVs, hk, ih]

/-- The second pass leaves `valid_packages` unchanged exactly when every
package scans clean. -/
theorem lockLoop_none_mem : ∀ {ps valid : List Json},
    lockLoop ps valid = .ok valid →
    ∀ p ∈ ps, ∃ pn rr : Json, ∃ reports : List Json,
      pyGet p "pkg" (.str "") = .ok pn ∧
      pyGet p "raw_reports" (.arr []) = .ok rr ∧
      pyElems rr = .ok reports ∧
      scanReports reports = .ok none
  | [], valid, _ => by simp
  | p0 :: ps, valid, h => by
    rw [lockLoop] at h
    cases hg1 : pyGet p0 "pkg" (.str "") with
    | error e => rw [hg1] at h; simp at h
    | ok pn =>
      rw [hg1] at h
      simp only [ok_bind] at h
      cases hg2 : pyGet p0 "raw_reports" (.arr []) with
      | error e => rw [hg2] at h; simp at h
      | ok rr =>
        rw [hg2] at h
        simp only [ok_bind] at h
        cases he : pyElems rr with
        | error e => rw [he] at h; simp at h
        | ok reports =>
          rw [he] at h
          simp only [ok_bind] at h
          cases hs : scanReports reports with
          | error e => rw [hs] at h; simp at h
          | ok found =>
            rw [hs] at h
            simp only [ok_bind] at h
            cases found with
            | some r =>
              simp only [pure, Except.pure, Except.ok.injEq] at h
              exact absurd (congrArg List.length h) (by simp)
            | none =>
              intro q hq
              rcases List.mem_cons.mp hq with hq | hq
              · subst hq
                exact ⟨pn, rr, reports, hg1, hg2, he, hs⟩
              · exact lockLoop_none_mem h q hq

/-- Conversely, when every package scans clean the second pass is the
identity on `valid_packages`. -/
theorem lockLoop_of_clean : ∀ (ps : List Json) (valid : List Json),
    (∀ p ∈ ps, ∃ pn rr : Json, ∃ reports : List Json,
      pyGet p "pkg" (.str "") = .ok pn ∧
      pyGet p "raw_reports" (.arr []) = .ok rr ∧
      pyElems rr = .ok reports ∧
      scanReports reports = .ok none) →
    lockLoop ps valid = .ok valid
  | [], valid, _ => rfl
  | p0 :: ps, valid, h => by
    obtain ⟨pn, rr, reports, hg1, hg2, he, hs⟩ := h p0 (by simp)
    rw [lockLoop, hg1]
    simp only [ok_bind]
    rw [hg2]
    simp only [ok_bind]
    rw [he]
    simp only [ok_bind]
    rw [hs]
    simp only [ok_bind]
    exact lockLoop_of_clean ps valid (fun q hq => h q (by simp [hq]))

theorem contains_append_self (valid : List Json) (x : Json) :
    (valid ++ [x]).contains x = true := by
  simp [List.contains]

/-- Dichotomy of one run-1 package iteration: either every file was
already recorded (the package is neither mutated nor appended), or some
file is fresh (the package is mutated to its filtered list and appended
unless an equal package is already a survivor); either way all walked
files end recorded and were hashable. -/
theorem reportLoop_run1 (pn : Json) (ftd : List Json) :
    ∀ (rs : List Json) (af : List (Json × List Json)) (valid : List Json)
      (p : Json) (af1 : List (Json × List Json)) (valid1 : List Json)
      (p1 : Json),
      reportLoop pn ftd rs af valid p = .ok (af1, valid1, p1) →
      ftd.length > 0 →
      (∀ fq, afMem af1 fq = (afMem af fq || rs.any (fun r => fileVal r == fq))) ∧
      (∀ r ∈ rs, hashable (fileVal r) = true) ∧
      (rs ≠ [] → hashable pn = true) ∧
      (((∀ r ∈ rs, afMem af (fileVal r) = true) ∧ valid1 = valid ∧ p1 = p) ∨
       ((∃ r ∈ rs, afMem af (fileVal r) = false) ∧ p1 = mutPkg p ftd ∧
        valid1 = (if valid.contains (mutPkg p ftd) then valid
                  else valid ++ [mutPkg p ftd])))
  | [], af, valid, p, af1, valid1, p1, h, hcnt => by
    simp only [reportLoop, Except.ok.injEq, Prod.mk.injEq] at h
    obtain ⟨h1, h2, h3⟩ := h
    subst h1
    subst h2
    subst h3
    refine ⟨by simp, by simp, fun hne => absurd rfl hne, Or.inl ⟨by simp, rfl, rfl⟩⟩
  | r :: rs, af, valid, p, af1, valid1, p1, h, hcnt => by
    rw [reportLoop] at h
    cases hg : pyGet r "file" (.str "") with
    | error e => rw [hg] at h; simp at h
    | ok fv =>
      rw [hg] at h
      simp only [ok_bind] at h
      have hfv : fv = fileVal r := (pyGet_ok hg).1
      subst hfv
      by_cases hh : hashable (fileVal r) = true
      · rw [hh] at h
        simp only [Bool.not_true, Bool.false_eq_true, if_false] at h
        by_cases ham : afMem af (fileVal r) = true
        · rw [ham] at h
          simp only [if_true] at h
          by_cases hpn : hashable pn = true
          · rw [hpn] at h
            simp only [Bool.not_true, Bool.false_eq_true, if_false] at h
            obtain ⟨hmem, hhash, _, hdich⟩ :=
              reportLoop_run1 pn ftd rs (afAdd af (fileVal r) pn) valid p
                af1 valid1 p1 h hcnt
            refine ⟨?_, ?_, fun _ => hpn, ?_⟩
            · intro fq
              rw [hmem fq, afMem_afAdd]
              by_cases hrq : (fileVal r == fq) = true
              · have := eq_of_beq hrq
                subst this
                simp [ham]
              · have hrq2 : (fileVal r == fq) = false := by simpa using hrq
                simp [hrq2]
            · intro q hq
              rcases List.mem_cons.mp hq with hq | hq
              · subst hq; exact hh
              · exact hhash q hq
            · rcases hdich with ⟨hseen, hv, hp⟩ | ⟨⟨w, hw, hfw⟩, hp, hv⟩
              · refine Or.inl ⟨?_, hv, hp⟩
                intro q hq
                rcases List.mem_cons.mp hq with hq | hq
                · subst hq; exact ham
                · have := hseen q hq
                  rwa [afMem_afAdd] at this
              · refine Or.inr ⟨⟨w, by simp [hw], ?_⟩, hp, hv⟩
                rwa [afMem_afAdd] at hfw
          · simp only [Bool.not_eq_true] at hpn
            rw [hpn] at h
            simp at h
        · simp only [Bool.not_eq_true] at ham
          rw [ham] at h
          simp only [Bool.false_eq_true, if_false] at h
          by_cases hpn : hashable pn = true
          · rw [hpn] at h
            simp only [Bool.not_true, Bool.false_eq_true, if_false] at h
            simp only [if_pos hcnt] at h
            obtain ⟨hmem, hhash, _, hdich⟩ :=
              reportLoop_run1 pn ftd rs (af ++ [(fileVal r, [pn])])
                (if valid.contains
                    (setKey (setKey p "raw_reports" (.arr ftd)) "count"
                      (.num ftd.length)) = true
                 then valid
                 else valid ++ [setKey (setKey p "raw_reports" (.arr ftd))
                   "count" (.num ftd.length)])
                (setKey (setKey p "raw_reports" (.arr ftd)) "count"
                  (.num ftd.length)) af1 valid1 p1 h hcnt
            have hmp : (setKey (setKey p "raw_reports" (.arr ftd)) "count"
                (.num ftd.length)) = mutPkg p ftd := rfl
            rw [hmp] at hdich
            refine ⟨?_, ?_, fun _ => hpn, ?_⟩
            · intro fq
              rw [hmem fq, afMem_append_single]
              simp [Bool.or_assoc]
            · intro q hq
              rcases List.mem_cons.mp hq with hq | hq
              · subst hq; exact hh
              · exact hhash q hq
            · refine Or.inr ⟨⟨r, by simp, ham⟩, ?_, ?_⟩
              · rcases hdich with ⟨_, _, hp⟩ | ⟨_, hp, _⟩
                · exact hp
                · rw [hp, mutPkg_idem]
              · rcases hdich with ⟨_, hv, _⟩ | ⟨_, _, hv⟩
                · exact hv
                · rw [hv, mutPkg_idem]
                  by_cases hc : valid.contains (mutPkg p ftd) = true
                  · have hm : mutPkg p ftd ∈ valid := List.mem_of_elem_eq_true hc
                    simp [hc, hm]
                  · have hm : mutPkg p ftd ∉ valid := fun hmm =>
                      hc (List.elem_eq_true_of_mem hmm)
                    simp [hc, hm, contains_append_self]
          · simp only [Bool.not_eq_true] at hpn
            rw [hpn] at h
            simp at h
      · simp only [Bool.not_eq_true] at hh
        rw [hh] at h
        simp at h


/-- What run 1 guarantees about each emitted survivor: a dict with a
hashable name, a nonempty `raw_reports` list that refilters to itself
with hashable file values, fixed by the mutation. -/
def PkgFacts (fs : List Pat) (p : Json) : Prop :=
  (∃ kvs : List (String × Json), p = .obj kvs) ∧
  hashable (getJD p "pkg" (.str "")) = true ∧
  reportsOfPkg p ≠ [] ∧
  lookupJ p "raw_reports" = some (.arr (reportsOfPkg p)) ∧
  filterReports fs (reportsOfPkg p) = .ok (reportsOfPkg p) ∧
  (∀ r ∈ reportsOfPkg p, hashable (fileVal r) = true) ∧
  mutPkg p (reportsOfPkg p) = p

/-- The survivor list as a chain: each survivor carries `PkgFacts` and at
least one file not seen among the previous survivors' files. -/
def StableChain (fs : List Pat) : (Json → Bool) → List Json → Prop
  | _, [] => True
  | m, p :: rest =>
      PkgFacts fs p ∧
      (∃ r ∈ reportsOfPkg p, m (fileVal r) = false) ∧
      StableChain fs
        (fun f => m f || (reportsOfPkg p).any (fun r => fileVal r == f)) rest

theorem StableChain_mono {fs : List Pat} :
    ∀ (survs : List Json) (m m' : Json → Bool),
      (∀ f, m' f = true → m f = true) →
      StableChain fs m survs → StableChain fs m' survs
  | [], _, _, _, _ => trivial
  | p :: rest, m, m', hmm, hc => by
    obtain ⟨hf, ⟨r, hr, hfr⟩, hchain⟩ := hc
    refine ⟨hf, ⟨r, hr, ?_⟩, ?_⟩
    · cases hm' : m' (fileVal r) with
      | false => rfl
      | true => exact absurd (hmm _ hm') (by simp [hfr])
    · refine StableChain_mono rest _ _ ?_ hchain
      intro f hf2
      rcases Bool.or_eq_true_iff.mp hf2 with h1 | h1
      · exact Bool.or_eq_true_iff.mpr (Or.inl (hmm f h1))
      · exact Bool.or_eq_true_iff.mpr (Or.inr h1)

/-- The running invariant of the first pass: every survivor's files are
recorded in `all_files_pkg`. -/
def ValidInv (af : List (Json × List Json)) (valid : List Json) : Prop :=
  ∀ q ∈ valid, ∀ r ∈ reportsOfPkg q, afMem af (fileVal r) = true

theorem pyGet_obj_ok {p : Json} {kvs : List (String × Json)} (h : p = .obj kvs)
    (k : String) (d : Json) : pyGet p k d = .ok (getJD p k d) := by
  subst h
  rfl

/-- Run-1 extraction: a successful first pass appends a `StableChain` of
survivors, each of them one of the mutated packages. -/
theorem packageLoop_chain {fs : List Pat} :
    ∀ (ps : List Json) (af : List (Json × List Json)) (valid : List Json)
      (af2 : List (Json × List Json)) (valid2 muts : List Json),
      packageLoop fs ps af valid = .ok (af2, valid2, muts) →
      ValidInv af valid →
      ∃ Δ, valid2 = valid ++ Δ ∧ StableChain fs (afMem af) Δ ∧
        (∀ q ∈ Δ, q ∈ muts) ∧ ValidInv af2 valid2
  | [], af, valid, af2, valid2, muts, h, hinv => by
    simp only [packageLoop, Except.ok.injEq, Prod.mk.injEq] at h
    obtain ⟨h1, h2, h3⟩ := h
    subst h1
    subst h2
    exact ⟨[], by simp, trivial, by simp, hinv⟩
  | p :: ps, af, valid, af2, valid2, muts, h, hinv => by
    rw [packageLoop] at h
    cases hg1 : pyGet p "pkg" (.str "") with
    | error e => rw [hg1] at h; simp at h
    | ok pn =>
      rw [hg1] at h
      simp only [ok_bind] at h
      cases hg2 : pyGet p "raw_reports" (.arr []) with
      | error e => rw [hg2] at h; simp at h
      | ok rr =>
        rw [hg2] at h
        simp only [ok_bind] at h
        obtain ⟨hrr, kvs, hp⟩ := pyGet_ok hg2
        cases he : pyElems rr with
        | error e => rw [he] at h; simp at h
        | ok reports =>
          rw [he] at h
          simp only [ok_bind] at h
          cases hf : filterReports fs reports with
          | error e => rw [hf] at h; simp at h
          | ok filtered =>
            rw [hf] at h
            simp only [ok_bind] at h
            cases hrl : reportLoop pn filtered filtered af valid p with
            | error e => rw [hrl] at h; simp at h
            | ok t1 =>
              rw [hrl] at h
              obtain ⟨af1, valid1, p1⟩ := t1
              simp only [ok_bind] at h
              cases hpl : packageLoop fs ps af1 valid1 with
              | error e => rw [hpl] at h; simp at h
              | ok t2 =>
                rw [hpl] at h
                obtain ⟨afx, validx, psx⟩ := t2
                simp only [ok_bind, pure, Except.pure, Except.ok.injEq,
                  Prod.mk.injEq] at h
                obtain ⟨hx1, hx2, hx3⟩ := h
                subst hx1
                subst hx2
                subst hx3
                by_cases hcnt : filtered.length > 0
                · obtain ⟨hmem, hhash, hpnc, hdich⟩ :=
                    reportLoop_run1 pn filtered filtered af valid p af1 valid1
                      p1 hrl hcnt
                  rcases hdich with ⟨hseen, hv1, hp1⟩ | ⟨⟨w, hw, hfw⟩, hp1, hv1⟩
                  · rw [hv1] at hpl
                    have hptw : ∀ fq, afMem af1 fq = afMem af fq := by
                      intro fq
                      rw [hmem fq]
                      by_cases hq : filtered.any (fun r => fileVal r == fq) = true
                      · rcases List.any_eq_true.mp hq with ⟨r, hr, hbe⟩
                        have := eq_of_beq hbe
                        subst this
                        simp [hseen r hr, hq]
                      · have hq2 : filtered.any (fun r => fileVal r == fq) = false := by
                          simpa using hq
                        simp [hq2]
                    have hinv1 : ValidInv af1 valid := by
                      intro q hq r hr
                      rw [hptw]
                      exact hinv q hq r hr
                    obtain ⟨Δ, hΔ1, hΔ2, hΔ3, hΔ4⟩ :=
                      packageLoop_chain ps af1 valid afx validx psx hpl hinv1
                    refine ⟨Δ, hΔ1, ?_, fun q hq => by simp [hΔ3 q hq], hΔ4⟩
                    exact StableChain_mono Δ (afMem af1) (afMem af)
                      (fun f hf2 => by rw [hptw]; exact hf2) hΔ2
                  · have hcont : valid.contains (mutPkg p filtered) = false := by
                      by_contra hcc
                      have hcc2 : valid.contains (mutPkg p filtered) = true := by
                        simpa using hcc
                      have hmemv : mutPkg p filtered ∈ valid :=
                        List.mem_of_elem_eq_true hcc2
                      have := hinv _ hmemv w
                      rw [hp] at this
                      rw [reportsOfPkg_mutPkg] at this
                      exact absurd (this hw) (by simp [hfw])
                    rw [hcont] at hv1
                    simp only [Bool.false_eq_true, if_false] at hv1
                    subst hv1
                    have hobjmut : mutPkg p filtered = .obj
                        (setKVs (setKVs kvs "raw_reports" (.arr filtered))
                          "count" (.num filtered.length)) := by
                      rw [hp]
                      rfl
                    have hrep : reportsOfPkg (mutPkg p filtered) = filtered := by
                      rw [hp]
                      exact reportsOfPkg_mutPkg kvs filtered
                    have hinv1 : ValidInv af1 (valid ++ [mutPkg p filtered]) := by
                      intro q hq r hr
                      rcases List.mem_append.mp hq with hq | hq
                      · rw [hmem]
                        simp [hinv q hq r hr]
                      · simp only [List.mem_singleton] at hq
                        subst hq
                        rw [hrep] at hr
                        rw [hmem]
                        have : filtered.any (fun r2 => fileVal r2 == fileVal r) = true :=
                          List.any_eq_true.mpr ⟨r, hr, by simp⟩
                        simp [this]
                    obtain ⟨Δ, hΔ1, hΔ2, hΔ3, hΔ4⟩ :=
                      packageLoop_chain ps af1 (valid ++ [mutPkg p filtered])
                        afx validx psx hpl hinv1
                    refine ⟨mutPkg p filtered :: Δ, ?_, ?_, ?_, hΔ4⟩
                    · rw [hΔ1]
                      simp
                    · refine ⟨?_, ?_, ?_⟩
                      · refine ⟨⟨_, hobjmut⟩, ?_, ?_, ?_, ?_, ?_, ?_⟩
                        · have : getJD (mutPkg p filtered) "pkg" (.str "") =
                              getJD p "pkg" (.str "") := by
                            rw [hp]
                            rw [getJD, getJD, lookupObj_mutPkg_other kvs filtered
                              "pkg" (by decide) (by decide)]
                            rfl
                          rw [this]
                          have hpn2 : pn = getJD p "pkg" (.str "") :=
                            (pyGet_ok hg1).1
                          rw [← hpn2]
                          refine hpnc ?_
                          intro hnil
                          rw [hnil] at hw
                          simp at hw
                        · rw [hrep]
                          intro hnil
                          rw [hnil] at hcnt
                          simp at hcnt
                        · rw [hrep, hp]
                          exact lookupObj_mutPkg_rr kvs filtered
                        · rw [hrep]
                          exact filterReports_ok_fix hf
                        · rw [hrep]
                          exact hhash
                        · rw [hrep, hp]
                          exact mutPkg_idem (.obj kvs) filtered
                      · rw [hrep]
                        exact ⟨w, hw, hfw⟩
                      · rw [hrep]
                        refine StableChain_mono Δ (afMem af1) _ ?_ hΔ2
                        intro f hf2
                        rw [hmem f]
                        exact hf2
                    · intro q hq
                      rcases List.mem_cons.mp hq with hq | hq
                      · subst hq
                        rw [← hp1]
                        simp
                      · simp [hΔ3 q hq]
                · have hftd : filtered = [] := by
                    cases filtered with
                    | nil => rfl
                    | cons a b => exact absurd (by simp) hcnt
                  subst hftd
                  simp only [reportLoop, Except.ok.injEq, Prod.mk.injEq] at hrl
                  obtain ⟨hr1, hr2, hr3⟩ := hrl
                  subst hr1
                  subst hr2
                  obtain ⟨Δ, hΔ1, hΔ2, hΔ3, hΔ4⟩ :=
                    packageLoop_chain ps af valid afx validx psx hpl hinv
                  exact ⟨Δ, hΔ1, hΔ2, fun q hq => by simp [hΔ3 q hq], hΔ4⟩


/-- Run-2 package processing: a mutation-fixed package not yet among the
survivors, with at least one unrecorded file, is appended exactly once
and left unchanged. -/
theorem reportLoop_mixed (pn : Json) (ftd : List Json)
    (hpn : hashable pn = true) (P : Json) (hfix : mutPkg P ftd = P)
    (hcnt : ftd.length > 0) :
    ∀ (rs : List Json) (af : List (Json × List Json)) (valid : List Json),
      (∀ r ∈ rs, ∃ kv : List (String × Json), r = .obj kv) →
      (∀ r ∈ rs, hashable (fileVal r) = true) →
      valid.contains P = false →
      (∃ r ∈ rs, afMem af (fileVal r) = false) →
      ∃ af2, reportLoop pn ftd rs af valid P = .ok (af2, valid ++ [P], P) ∧
        ∀ fq, afMem af2 fq = (afMem af fq || rs.any (fun r => fileVal r == fq))
  | [], af, valid, _, _, _, hfresh => absurd hfresh (by simp)
  | r :: rs, af, valid, hobj, hhash, hcont, hfresh => by
    rw [reportLoop]
    rw [pyGet_obj_file (hobj r (by simp)).choose_spec]
    simp only [ok_bind]
    rw [hhash r (by simp)]
    simp only [Bool.not_true, Bool.false_eq_true, if_false]
    by_cases ham : afMem af (fileVal r) = true
    · rw [ham]
      simp only [if_true, hpn, Bool.not_true, Bool.false_eq_true, if_false]
      have hfresh2 : ∃ r2 ∈ rs, afMem (afAdd af (fileVal r) pn) (fileVal r2) = false := by
        obtain ⟨w, hw, hfw⟩ := hfresh
        rcases List.mem_cons.mp hw with hw | hw
        · subst hw
          exact absurd ham (by simp [hfw])
        · exact ⟨w, hw, by rw [afMem_afAdd]; exact hfw⟩
      obtain ⟨af2, hrun, hmem⟩ := reportLoop_mixed pn ftd hpn P hfix hcnt rs
        (afAdd af (fileVal r) pn) valid
        (fun q hq => hobj q (by simp [hq]))
        (fun q hq => hhash q (by simp [hq])) hcont hfresh2
      refine ⟨af2, hrun, ?_⟩
      intro fq
      rw [hmem fq, afMem_afAdd]
      by_cases hrq : (fileVal r == fq) = true
      · have := eq_of_beq hrq
        subst this
        simp [ham]
      · have hrq2 : (fileVal r == fq) = false := by simpa using hrq
        simp [hrq2]
    · simp only [Bool.not_eq_true] at ham
      rw [ham]
      simp only [Bool.false_eq_true, if_false, hpn, Bool.not_true]
      simp only [if_pos hcnt]
      have hfixK : setKey (setKey P "raw_reports" (.arr ftd)) "count"
          (.num ftd.length) = P := hfix
      rw [hfixK, hcont]
      simp only [Bool.false_eq_true, if_false]
      obtain ⟨af2, hrun, hmem⟩ := reportLoop_steady pn ftd hpn P hfix rs
        (af ++ [(fileVal r, [pn])]) (valid ++ [P])
        (fun q hq => hobj q (by simp [hq]))
        (fun q hq => hhash q (by simp [hq]))
        (contains_append_self valid P)
      refine ⟨af2, hrun, ?_⟩
      intro fq
      rw [hmem fq, afMem_append_single]
      simp [Bool.or_assoc]

/-- Run-2 whole-pass stability: reprocessing a `StableChain` of survivors
re-emits exactly that chain, in order, with no further mutation. -/
theorem packageLoop_stable {fs : List Pat} :
    ∀ (survs : List Json) (af : List (Json × List Json)) (valid2 : List Json),
      StableChain fs (afMem af) survs →
      (∀ q ∈ valid2, ∀ r ∈ reportsOfPkg q, afMem af (fileVal r) = true) →
      ∃ af2, packageLoop fs survs af valid2 = .ok (af2, valid2 ++ survs, survs)
  | [], af, valid2, _, _ => ⟨af, by simp [packageLoop]⟩
  | p :: rest, af, valid2, hchain, hinv => by
    obtain ⟨⟨⟨kvs, hobjp⟩, hpn, hne, hrr, hrefil, hhash, hfix⟩,
      ⟨w, hw, hfw⟩, hrest⟩ := hchain
    have hcnt : (reportsOfPkg p).length > 0 := by
      cases hrp : reportsOfPkg p with
      | nil => exact absurd hrp hne
      | cons a b => simp
    have hcontp : valid2.contains p = false := by
      by_contra hcc
      have hcc2 : valid2.contains p = true := by simpa using hcc
      have hmemv : p ∈ valid2 := List.mem_of_elem_eq_true hcc2
      exact absurd (hinv p hmemv w hw) (by simp [hfw])
    have hobjs : ∀ r ∈ reportsOfPkg p, ∃ kv : List (String × Json), r = .obj kv :=
      fun r hr => (filterReports_ok_mem hrefil r hr).1
    obtain ⟨af1, hrun1, hmem1⟩ := reportLoop_mixed (getJD p "pkg" (.str ""))
      (reportsOfPkg p) hpn p hfix hcnt (reportsOfPkg p) af valid2 hobjs hhash
      hcontp ⟨w, hw, hfw⟩
    have hchain2 : StableChain fs (afMem af1) rest := by
      refine StableChain_mono rest _ _ ?_ hrest
      intro f hf2
      rw [hmem1 f] at hf2
      exact hf2
    have hinv2 : ∀ q ∈ valid2 ++ [p], ∀ r ∈ reportsOfPkg q,
        afMem af1 (fileVal r) = true := by
      intro q hq r hr
      rcases List.mem_append.mp hq with hq | hq
      · rw [hmem1]
        simp [hinv q hq r hr]
      · simp only [List.mem_singleton] at hq
        subst hq
        rw [hmem1]
        have hany : (reportsOfPkg q).any (fun r2 => fileVal r2 == fileVal r) = true :=
          List.any_eq_true.mpr ⟨r, hr, by simp⟩
        simp [hany]
    obtain ⟨af2, hrun2⟩ := packageLoop_stable rest af1 (valid2 ++ [p]) hchain2 hinv2
    refine ⟨af2, ?_⟩
    rw [packageLoop]
    rw [pyGet_obj_ok hobjp "pkg" (.str "")]
    simp only [ok_bind]
    rw [pyGet_obj_ok hobjp "raw_reports" (.arr [])]
    simp only [ok_bind]
    have hgd : getJD p "raw_reports" (.arr []) = .arr (reportsOfPkg p) := by
      rw [getJD, hrr]
      rfl
    rw [hgd]
    simp only [pyElems, ok_bind]
    rw [hrefil]
    simp only [ok_bind]
    rw [hrun1]
    simp only [ok_bind]
    rw [hrun2]
    simp only [ok_bind, pure, Except.pure]
    simp

/-! ## Claim theorems: concrete runs -/

/-- Claim C1, counterexample: on the exact input document of the claim,
with the five built-in rules, `apply_filter` does *not* replace `data`
with the bare lockfile finding `[{"file": "x/Cargo.lock"}]` — the run
produces `c1Actual` (the survivor package alone), not `c1Claimed`. -/
theorem c1_counterexample :
    apply_filter c1Doc builtinFilters = .ok c1Actual ∧
    apply_filter c1Doc builtinFilters ≠ .ok c1Claimed := by
  decide

/-- Claim C1, amended: on the claim's input document with the built-in
rules, `apply_filter` replaces `data` with the single survivor package
`{"pkg": "p1", "raw_reports": [{"file": "src/main.rs"}], "count": 1}`
and appends no bare lockfile finding, because the second pass reads the
already-mutated `raw_reports` in which `x/Cargo.lock` no longer occurs. -/
theorem c1_amended :
    apply_filter c1Doc builtinFilters = .ok c1Actual := by
  decide

/-- Claim C2, counterexample: on `c2Doc` the first report in *original*
iteration order whose file contains `Cargo.lock` exists (it is
`{"file": "a/Cargo.lock"}`), yet the run appends no bare report at all:
the output `data` is exactly the one survivor package, because the
second pass scans the mutated report lists, not the original ones. -/
theorem c2_counterexample :
    firstLockfileReport (elemsTotal (getJD c2Doc "data" (.arr []))) =
      some (.obj [("file", .str "a/Cargo.lock")]) ∧
    apply_filter c2Doc builtinFilters = .ok c2Actual ∧
    getJD c2Actual "data" (.arr []) =
      .arr [.obj [("pkg", .str "q"),
        ("raw_reports", .arr [.obj [("file", .str "keep.rs")]]),
        ("count", .num 1)]] ∧
    (.obj [("pkg", .str "q"),
        ("raw_reports", .arr [.obj [("file", .str "keep.rs")]]),
        ("count", .num 1)] : Json) ≠ .obj [("file", .str "a/Cargo.lock")] := by
  decide

/-- Claim C3, counterexample to idempotence: applying `apply_filter` to
the output of a first application removes the bare lockfile finding the
first run appended, so the second data list differs from the first. -/
theorem c3_counterexample :
    apply_filter c3Doc builtinFilters = .ok c3Out1 ∧
    apply_filter c3Out1 builtinFilters = .ok c3Out2 ∧
    getJD c3Out1 "data" (.arr []) ≠ getJD c3Out2 "data" (.arr []) := by
  decide

/-- Claim C5, counterexample: on `c5Doc` every report of the only package
matches a rule (its filtered list is empty), yet the output data list is
*not* free of entries from that package — its report `c/Cargo.lock` is
appended by the lockfile pass, which scans this package's (unmutated)
report list. -/
theorem c5_counterexample :
    filterReports builtinFilters [.obj [("file", .str "c/Cargo.lock")]] =
      .ok [] ∧
    apply_filter c5Doc builtinFilters =
      .ok (.obj [("data", .arr [.obj [("file", .str "c/Cargo.lock")]])]) := by
  decide

/-- Claim C6, counterexample: packages A and B both carry a surviving
report on `shared/dep.rs`; B also has a fresh file, so B is appended too,
with its full filtered list still containing the shared file — the
output has *two* survivor entries carrying a report on the shared file,
not exactly one. -/
theorem c6_counterexample :
    apply_filter c6Doc builtinFilters =
      .ok (.obj [("data", .arr [c6A, c6B])]) ∧
    hasReportOn c6A "shared/dep.rs" = true ∧
    hasReportOn c6B "shared/dep.rs" = true ∧
    c6A ≠ c6B := by
  decide

/-- Claim C7: a rule-file line `foo-1.2.3/bar/baz.rs` compiles to the
pattern `foo-[^/]+/bar/baz\.rs` — literal except for the `-[^/]+`
wildcard after the crate name — which matches `foo-9.9.9/bar/baz.rs` but
not `other-1.2.3/bar/baz.rs`; blank lines (after stripping) produce no
rule. -/
theorem c7_crate_rule_compilation :
    load_filter_patterns ["foo-1.2.3/bar/baz.rs"] =
      Pat.crateRule "foo" "bar/baz.rs" :: builtinFilters ∧
    (Pat.crateRule "foo" "bar/baz.rs").search "foo-9.9.9/bar/baz.rs" = true ∧
    (Pat.crateRule "foo" "bar/baz.rs").search "other-1.2.3/bar/baz.rs" = false ∧
    load_filter_patterns ["", "   ", "\t"] = builtinFilters := by
  decide

/-- Claim C8, counterexample: `apply_filter` does *not* fail on every
structurally malformed document.  The empty list is not a dict, yet
`"data" not in []` is `True` and the call returns it unchanged with no
error; a dict whose `data` is an (empty) dict rather than a sequence is
likewise processed without error. -/
theorem c8_counterexample :
    apply_filter (.arr []) builtinFilters = .ok (.arr []) ∧
    apply_filter (.obj [("data", .obj [])]) builtinFilters =
      .ok (.obj [("data", .arr [])]) := by
  decide

/-- Claim C8, amended: many structurally malformed documents do raise —
a numeric `data` raises `TypeError` at the loop, a nonempty list document
containing the string `"data"` raises `AttributeError` at `.get` — but a
non-dict document not containing `"data"` is returned unchanged (the code
has no `MalformedInputError`; it raises whatever native error it runs
into, or none).  Reports missing `file` and packages missing `pkg`
default to the empty string and raise nothing. -/
theorem c8_amended :
    (∀ fs : List Pat,
      apply_filter (.obj [("data", .num 5)]) fs = .error .typeError) ∧
    (∀ fs : List Pat,
      apply_filter (.arr [.str "data"]) fs = .error .attributeError) ∧
    (∀ fs : List Pat, apply_filter (.arr []) fs = .ok (.arr [])) ∧
    apply_filter c8MissingDoc builtinFilters = .ok c8MissingOut := by
  refine ⟨fun fs => rfl, fun fs => rfl, fun fs => rfl, by decide⟩

/-- Claim C10: the file `Cargo.lock` (no preceding slash) matches none of
the five built-in rules — `/Cargo\.lock$` requires the slash — so the
package survives with the report kept, and the lockfile pass then appends
the very same report again as a bare entry: the output data list carries
it twice. -/
theorem c10_duplicate_lockfile :
    matchesAny builtinFilters (.str "Cargo.lock") = .ok false ∧
    apply_filter c10Doc builtinFilters =
      .ok (.obj [("data", .arr [c10Pkg, c10Rep])]) ∧
    getJD c10Pkg "raw_reports" (.arr []) = .arr [c10Rep] := by
  decide

/-! ## Claim theorems: the lockfile pass -/

/-- Claim C2, amended: a successful `apply_filter` run on a document with
a `data` entry decomposes into the first pass and the lockfile pass, and
the lockfile pass is applied to the *mutated* package list: the bare
report appended (if any) is the first report, in package-and-report
order over the post-first-pass lists, whose `file` contains `Cargo.lock`
— the scan stops there, and when no such report exists nothing is
appended. -/
theorem c2_amended :
    ∀ (doc dv : Json) (fs : List Pat) (pkgs : List Json)
      (af : List (Json × List Json)) (valid mutated out : List Json),
      pyContainsStr "data" doc = .ok true →
      pyGet doc "data" (.arr []) = .ok dv →
      pyElems dv = .ok pkgs →
      packageLoop fs pkgs [] [] = .ok (af, valid, mutated) →
      lockLoop mutated valid = .ok out →
      apply_filter doc fs = .ok (setKey doc "data" (.arr out)) ∧
      out = valid ++ (firstLockfileReport mutated).toList := by
  intro doc dv fs pkgs af valid mutated out h1 h2 h3 h4 h5
  exact ⟨apply_filter_run h1 h2 h3 h4 h5, lockLoop_ok mutated valid out h5⟩

/-- The mutated survivor package of the C2 witness run. -/
def c2Mut : Json :=
  .obj [("pkg", .str "q"),
    ("raw_reports", .arr [.obj [("file", .str "keep.rs")]]),
    ("count", .num 1)]

/-- Claim C2, witness: the amended statement applied to the concrete run
on `c2Doc`, every hypothesis discharged by evaluation. -/
theorem c2_amended_witness :
    packageLoop builtinFilters (elemsTotal (getJD c2Doc "data" (.arr []))) [] [] =
      .ok ([(.str "keep.rs", [.str "q"])], [c2Mut], [c2Mut]) ∧
    apply_filter c2Doc builtinFilters = .ok (setKey c2Doc "data" (.arr [c2Mut])) ∧
    [c2Mut] = [c2Mut] ++ (firstLockfileReport [c2Mut]).toList :=
  ⟨by decide,
   (c2_amended c2Doc (getJD c2Doc "data" (.arr [])) builtinFilters
      (elemsTotal (getJD c2Doc "data" (.arr [])))
      [(.str "keep.rs", [.str "q"])] [c2Mut] [c2Mut] [c2Mut]
      (by decide) (by decide) (by decide) (by decide) (by decide)).1,
   (c2_amended c2Doc (getJD c2Doc "data" (.arr [])) builtinFilters
      (elemsTotal (getJD c2Doc "data" (.arr [])))
      [(.str "keep.rs", [.str "q"])] [c2Mut] [c2Mut] [c2Mut]
      (by decide) (by decide) (by decide) (by decide) (by decide)).2⟩

/-! ## Claim theorem: the retained-package invariant -/

/-- Claim C4: after a successful `apply_filter` run on a document with a
`data` entry, the output data list is the survivor list followed by at
most one bare lockfile finding, and every retained Package entry (the
survivor list — the bare finding excluded) has a `raw_reports` list
containing only reports whose `file` field (defaulting to the empty
string when absent) matches none of the compiled rules, with its `count`
field equal to that list's length. -/
theorem c4_invariant :
    ∀ (doc dv : Json) (fs : List Pat) (pkgs : List Json)
      (af : List (Json × List Json)) (valid mutated out : List Json),
      pyContainsStr "data" doc = .ok true →
      pyGet doc "data" (.arr []) = .ok dv →
      pyElems dv = .ok pkgs →
      packageLoop fs pkgs [] [] = .ok (af, valid, mutated) →
      lockLoop mutated valid = .ok out →
      apply_filter doc fs = .ok (setKey doc "data" (.arr out)) ∧
      out = valid ++ (firstLockfileReport mutated).toList ∧
      ∀ p ∈ valid, GoodPkg fs p := by
  intro doc dv fs pkgs af valid mutated out h1 h2 h3 h4 h5
  exact ⟨apply_filter_run h1 h2 h3 h4 h5, lockLoop_ok mutated valid out h5,
    packageLoop_good pkgs [] [] af valid mutated h4 (by simp)⟩

/-- The input document of the C4 witness. -/
def c4Doc : Json :=
  .obj [("data", .arr [.obj [("pkg", .str "w"),
    ("raw_reports", .arr [.obj [("file", .str "ok.rs")],
                          .obj [("file", .str "some/Cargo.lock")]])]])]

/-- The survivor package of the C4 witness run. -/
def c4Surv : Json :=
  .obj [("pkg", .str "w"),
    ("raw_reports", .arr [.obj [("file", .str "ok.rs")]]),
    ("count", .num 1)]

/-- Claim C4, witness: the invariant applied to the concrete run on
`c4Doc`, every hypothesis discharged by evaluation. -/
theorem c4_invariant_witness :
    packageLoop builtinFilters (elemsTotal (getJD c4Doc "data" (.arr []))) [] [] =
      .ok ([(.str "ok.rs", [.str "w"])], [c4Surv], [c4Surv]) ∧
    GoodPkg builtinFilters c4Surv :=
  ⟨by decide,
   (c4_invariant c4Doc (getJD c4Doc "data" (.arr [])) builtinFilters
      (elemsTotal (getJD c4Doc "data" (.arr [])))
      [(.str "ok.rs", [.str "w"])] [c4Surv] [c4Surv] [c4Surv]
      (by decide) (by decide) (by decide) (by decide) (by decide)).2.2 c4Surv
      (by simp)⟩

/-! ## Claim theorem: packages with an empty filtered list -/

/-- Claim C5, amended: a package whose filtered report list is empty
contributes nothing to the *first* pass — no seen-file entries, no
survivor entry — and stays in the mutated data list unchanged; the first
pass's result is the same as if the package were absent, except for the
unchanged package itself, which the lockfile pass can therefore still
read (and whose reports can still furnish the bare Lockfile Finding). -/
theorem c5_amended :
    ∀ (fs : List Pat) (p : Json) (ps : List Json)
      (af : List (Json × List Json)) (valid : List Json)
      (pn rr : Json) (reports : List Json),
      pyGet p "pkg" (.str "") = .ok pn →
      pyGet p "raw_reports" (.arr []) = .ok rr →
      pyElems rr = .ok reports →
      filterReports fs reports = .ok [] →
      packageLoop fs (p :: ps) af valid =
        Except.map (fun t => (t.1, t.2.1, p :: t.2.2))
          (packageLoop fs ps af valid) := by
  intro fs p ps af valid pn rr reports h1 h2 h3 h4
  rw [packageLoop]
  rw [h1]
  simp only [ok_bind]
  rw [h2]
  simp only [ok_bind]
  rw [h3]
  simp only [ok_bind]
  rw [h4]
  simp only [ok_bind]
  rw [reportLoop]
  simp only [ok_bind]
  cases packageLoop fs ps af valid with
  | error e => simp [Except.map]
  | ok t =>
    obtain ⟨a, b, c⟩ := t
    simp [Except.map, pure, Except.pure]

/-- The single package of `c5Doc`. -/
def c5Pkg : Json :=
  .obj [("pkg", .str "a"),
    ("raw_reports", .arr [.obj [("file", .str "c/Cargo.lock")]])]

/-- Claim C5, witness: the amended statement applied to the all-filtered
package of `c5Doc`. -/
theorem c5_amended_witness :
    filterReports builtinFilters [.obj [("file", .str "c/Cargo.lock")]] =
      .ok [] ∧
    packageLoop builtinFilters [c5Pkg] [] [] =
      Except.map (fun t => (t.1, t.2.1, c5Pkg :: t.2.2))
        (packageLoop builtinFilters [] [] []) :=
  ⟨by decide,
   c5_amended builtinFilters c5Pkg [] [] [] (.str "a")
     (.arr [.obj [("file", .str "c/Cargo.lock")]])
     [.obj [("file", .str "c/Cargo.lock")]]
     (by decide) (by decide) (by decide) (by decide)⟩

/-! ## Claim theorems: the frame property -/

/-- Claim C9: `apply_filter` mutates only the `data` entry.  A dict
document without a `data` key is returned completely unchanged with no
error; and when a dict document is processed successfully, every
top-level key other than `data` is bound to its original value in the
result. -/
theorem c9_frame :
    (∀ (kvs : List (String × Json)) (fs : List Pat),
        lookupObj kvs "data" = none →
        apply_filter (.obj kvs) fs = .ok (.obj kvs)) ∧
    (∀ (kvs kvs' : List (String × Json)) (fs : List Pat),
        apply_filter (.obj kvs) fs = .ok (.obj kvs') →
        ∀ k, k ≠ "data" → lookupObj kvs' k = lookupObj kvs k) := by
  constructor
  · intro kvs fs h
    unfold apply_filter
    have hc : pyContainsStr "data" (.obj kvs) = .ok false := by
      simp only [pyContainsStr]
      rw [lookupObj_none_any h]
    rw [hc]
    simp [pure, Except.pure]
  · intro kvs kvs' fs h k hk
    unfold apply_filter at h
    simp only [pyContainsStr, ok_bind] at h
    by_cases hb : kvs.any (fun kv => kv.1 == "data") = true
    · rw [hb] at h
      simp only [Bool.not_true, Bool.false_eq_true, if_false] at h
      simp only [pyGet, ok_bind] at h
      cases he : pyElems ((lookupObj kvs "data").getD (.arr [])) with
      | error e => rw [he] at h; simp at h
      | ok pkgs =>
        rw [he] at h
        simp only [ok_bind] at h
        cases hp : packageLoop fs pkgs [] [] with
        | error e => rw [hp] at h; simp at h
        | ok t =>
          rw [hp] at h
          obtain ⟨af, valid, mutated⟩ := t
          simp only [ok_bind] at h
          cases hl : lockLoop mutated valid with
          | error e => rw [hl] at h; simp at h
          | ok out =>
            rw [hl] at h
            simp only [ok_bind, pure, Except.pure, setKey, Except.ok.injEq,
              Json.obj.injEq] at h
            rw [← h]
            exact lookupObj_setKVs_ne hk
    · simp only [Bool.not_eq_true] at hb
      rw [hb] at h
      simp only [Bool.not_false, if_true, pure, Except.pure, Except.ok.injEq,
        Json.obj.injEq] at h
      rw [h]

/-- Claim C9, witness: both halves applied to concrete documents — a
dict without `data` is unchanged under the empty rule list, and for the
run on `{"z": 1, "data": {}}` (whose `data` value is replaced by `[]`)
the key `z` keeps its value. -/
theorem c9_frame_witness :
    apply_filter (.obj [("x", .null)]) [] = .ok (.obj [("x", .null)]) ∧
    lookupObj [("z", Json.num 1), ("data", Json.arr [])] "z" =
      lookupObj [("z", Json.num 1), ("data", Json.obj [])] "z" :=
  ⟨c9_frame.1 [("x", .null)] [] (by decide),
   c9_frame.2 [("z", .num 1), ("data", .obj [])]
     [("z", .num 1), ("data", .arr [])] [] (by decide) "z" (by decide)⟩

/-! ## Claim theorem: shared-file deduplication -/

/-- Claim C6, amended: with two packages A (earlier) and B (later) whose
reports survive filtering, when every filtered file of B already occurs
among A's filtered files (e.g. the shared path is B's only surviving
report), the first pass emits exactly one survivor entry — the
first-encountered package A, mutated — and B contributes no entry at all
(it stays unmutated in the data list).  The C6 counterexample shows the
other side: a later package with a fresh file of its own is appended with
its full filtered list, shared file included. -/
theorem c6_amended :
    ∀ (fs : List Pat) (A B : Json) (kvsA : List (String × Json))
      (pnA pnB rrA rrB : Json) (repsA repsB fA fB : List Json),
      A = .obj kvsA →
      pyGet A "pkg" (.str "") = .ok pnA →
      hashable pnA = true →
      pyGet A "raw_reports" (.arr []) = .ok rrA →
      pyElems rrA = .ok repsA →
      filterReports fs repsA = .ok fA →
      fA ≠ [] →
      pyGet B "pkg" (.str "") = .ok pnB →
      hashable pnB = true →
      pyGet B "raw_reports" (.arr []) = .ok rrB →
      pyElems rrB = .ok repsB →
      filterReports fs repsB = .ok fB →
      (∀ r ∈ fB, ∃ rA ∈ fA, fileVal rA = fileVal r) →
      (∀ r ∈ fA, hashable (fileVal r) = true) →
      ∃ af2, packageLoop fs [A, B] [] [] =
        .ok (af2,
          [.obj (setKVs (setKVs kvsA "raw_reports" (.arr fA)) "count"
            (.num fA.length))],
          [.obj (setKVs (setKVs kvsA "raw_reports" (.arr fA)) "count"
            (.num fA.length)), B]) := by
  intro fs A B kvsA pnA pnB rrA rrB repsA repsB fA fB hA hA1 hA2 hA3 hA4 hA5
    hA6 hB1 hB2 hB3 hB4 hB5 hsub hhashA
  have hobjA : ∀ r ∈ fA, ∃ kv : List (String × Json), r = .obj kv :=
    fun r hr => (filterReports_ok_mem hA5 r hr).1
  have hobjB : ∀ r ∈ fB, ∃ kv : List (String × Json), r = .obj kv :=
    fun r hr => (filterReports_ok_mem hB5 r hr).1
  have hhashB : ∀ r ∈ fB, hashable (fileVal r) = true := by
    intro r hr
    obtain ⟨rA, hrA, heq⟩ := hsub r hr
    rw [← heq]
    exact hhashA rA hrA
  obtain ⟨afA, hrunA, hmemA⟩ :=
    reportLoop_freshPkg pnA fA hA2 kvsA hobjA hhashA hA6
  have hseenB : ∀ r ∈ fB, afMem afA (fileVal r) = true := by
    intro r hr
    obtain ⟨rA, hrA, heq⟩ := hsub r hr
    rw [hmemA]
    exact List.any_eq_true.mpr ⟨rA, hrA, by simp [heq]⟩
  obtain ⟨afB, hrunB⟩ := reportLoop_allSeen pnB fB hB2 B fB afA
    [.obj (setKVs (setKVs kvsA "raw_reports" (.arr fA)) "count"
      (.num fA.length))] hobjB hhashB hseenB
  refine ⟨afB, ?_⟩
  rw [packageLoop]
  rw [hA1]
  simp only [ok_bind]
  rw [hA3]
  simp only [ok_bind]
  rw [hA4]
  simp only [ok_bind]
  rw [hA5]
  simp only [ok_bind]
  rw [hA]
  rw [hrunA]
  simp only [ok_bind]
  rw [packageLoop]
  rw [hB1]
  simp only [ok_bind]
  rw [hB3]
  simp only [ok_bind]
  rw [hB4]
  simp only [ok_bind]
  rw [hB5]
  simp only [ok_bind]
  rw [hrunB]
  simp only [ok_bind]
  rw [packageLoop]
  simp [pure, Except.pure]

/-- A package of the C6 witness: only the shared report. -/
def c6WA : Json :=
  .obj [("pkg", .str "A"),
    ("raw_reports", .arr [.obj [("file", .str "shared/dep.rs")]])]

/-- The second package of the C6 witness: the same single shared report. -/
def c6WB : Json :=
  .obj [("pkg", .str "B"),
    ("raw_reports", .arr [.obj [("file", .str "shared/dep.rs")]])]

/-- The lone survivor of the C6 witness run: A, mutated. -/
def c6WOut : Json :=
  .obj [("pkg", .str "A"),
    ("raw_reports", .arr [.obj [("file", .str "shared/dep.rs")]]),
    ("count", .num 1)]

/-- Claim C6, witness: the amended statement applied to the spec's
two-package scenario, every hypothesis discharged by evaluation. -/
theorem c6_amended_witness :
    filterReports builtinFilters [.obj [("file", .str "shared/dep.rs")]] =
      .ok [.obj [("file", .str "shared/dep.rs")]] ∧
    ∃ af2, packageLoop builtinFilters [c6WA, c6WB] [] [] =
      .ok (af2, [c6WOut], [c6WOut, c6WB]) :=
  ⟨by decide,
   c6_amended builtinFilters c6WA c6WB
     [("pkg", .str "A"),
      ("raw_reports", .arr [.obj [("file", .str "shared/dep.rs")]])]
     (.str "A") (.str "B")
     (.arr [.obj [("file", .str "shared/dep.rs")]])
     (.arr [.obj [("file", .str "shared/dep.rs")]])
     [.obj [("file", .str "shared/dep.rs")]]
     [.obj [("file", .str "shared/dep.rs")]]
     [.obj [("file", .str "shared/dep.rs")]]
     [.obj [("file", .str "shared/dep.rs")]]
     rfl (by decide) (by decide) (by decide) (by decide) (by decide)
     (by decide) (by decide) (by decide) (by decide) (by decide)
     (by decide) (by decide) (by decide)⟩

/-! ## Claim theorem: restricted idempotence -/

/-- Claim C3, amended: when the first run's lockfile pass appends nothing
(its scan of the mutated packages finds no `Cargo.lock` report), applying
`apply_filter` a second time to the first output changes nothing at all:
every survivor package is re-emitted unchanged, in order, and the data
list after the second application equals the data list after the first.
The C3 counterexample shows the exception this clause excludes: a bare
Lockfile Finding in the first output is dropped by the second run. -/
theorem c3_amended :
    ∀ (doc dv : Json) (fs : List Pat) (pkgs : List Json)
      (af : List (Json × List Json)) (valid mutated : List Json),
      pyContainsStr "data" doc = .ok true →
      pyGet doc "data" (.arr []) = .ok dv →
      pyElems dv = .ok pkgs →
      packageLoop fs pkgs [] [] = .ok (af, valid, mutated) →
      lockLoop mutated valid = .ok valid →
      apply_filter doc fs = .ok (setKey doc "data" (.arr valid)) ∧
      apply_filter (setKey doc "data" (.arr valid)) fs =
        .ok (setKey doc "data" (.arr valid)) := by
  intro doc dv fs pkgs af valid mutated h1 h2 h3 h4 h5
  obtain ⟨hdv, kvs, hdoc⟩ := pyGet_ok h2
  refine ⟨apply_filter_run h1 h2 h3 h4 h5, ?_⟩
  obtain ⟨Δ, hΔ1, hΔ2, hΔ3, hΔ4⟩ :=
    packageLoop_chain pkgs [] [] af valid mutated h4 (by intro q hq; simp at hq)
  rw [List.nil_append] at hΔ1
  subst hΔ1
  have hclean := lockLoop_none_mem h5
  have hsub : ∀ q ∈ valid, q ∈ mutated := hΔ3
  have h5' : lockLoop valid valid = .ok valid :=
    lockLoop_of_clean valid valid (fun p hp => hclean p (hsub p hp))
  have hchain : StableChain fs (afMem []) valid := hΔ2
  obtain ⟨af2, hrun2⟩ := packageLoop_stable valid [] [] hchain
    (by intro q hq; simp at hq)
  rw [List.nil_append] at hrun2
  subst hdoc
  have hsetk : setKey (.obj kvs) "data" (.arr valid) =
      .obj (setKVs kvs "data" (.arr valid)) := rfl
  rw [hsetk]
  have h1' : pyContainsStr "data" (.obj (setKVs kvs "data" (.arr valid))) =
      .ok true := by
    simp only [pyContainsStr]
    rw [any_setKVs_self]
  have h2' : pyGet (.obj (setKVs kvs "data" (.arr valid))) "data" (.arr []) =
      .ok (.arr valid) := by
    simp only [pyGet]
    rw [lookupObj_setKVs_self]
    rfl
  have h3' : pyElems (.arr valid) = .ok valid := rfl
  have hresult := apply_filter_run h1' h2' h3' hrun2 h5'
  rw [hresult]
  have : setKey (.obj (setKVs kvs "data" (.arr valid))) "data" (.arr valid) =
      .obj (setKVs kvs "data" (.arr valid)) := by
    simp only [setKey]
    rw [setKVs_noop (lookupObj_setKVs_self _ _)]
  rw [this]

/-- The input document of the C3 witness. -/
def c3WDoc : Json :=
  .obj [("data", .arr [.obj [("pkg", .str "s"),
    ("raw_reports", .arr [.obj [("file", .str "m.rs")]])]])]

/-- The survivor of the C3 witness run. -/
def c3WSurv : Json :=
  .obj [("pkg", .str "s"),
    ("raw_reports", .arr [.obj [("file", .str "m.rs")]]),
    ("count", .num 1)]

/-- Claim C3, witness: the amended statement applied to the concrete run
on `c3WDoc`, every hypothesis discharged by evaluation. -/
theorem c3_amended_witness :
    lockLoop [c3WSurv] [c3WSurv] = .ok [c3WSurv] ∧
    apply_filter c3WDoc builtinFilters =
      .ok (setKey c3WDoc "data" (.arr [c3WSurv])) ∧
    apply_filter (setKey c3WDoc "data" (.arr [c3WSurv])) builtinFilters =
      .ok (setKey c3WDoc "data" (.arr [c3WSurv])) :=
  ⟨by decide,
   (c3_amended c3WDoc (getJD c3WDoc "data" (.arr [])) builtinFilters
      (elemsTotal (getJD c3WDoc "data" (.arr [])))
      [(.str "m.rs", [.str "s"])] [c3WSurv] [c3WSurv]
      (by decide) (by decide) (by decide) (by decide) (by decide)).1,
   (c3_amended c3WDoc (getJD c3WDoc "data" (.arr [])) builtinFilters
      (elemsTotal (getJD c3WDoc "data" (.arr [])))
      [(.str "m.rs", [.str "s"])] [c3WSurv] [c3WSurv]
      (by decide) (by decide) (by decide) (by decide) (by decide)).2⟩

end RuleEngine
